import Mathlib

/-!
# OpenFlight record stream parser (`OpenFlightParser.cpp`)

A shallow embedding of `OpenFlightParser::parseFile` and the routines it calls,
followed by theorems about the record loop.

Modelling conventions.

* The input file is a list of bytes; `std::ifstream` is a record holding the
  file contents, the get position, `eofbit`, `failbit` and `gcount`.
* The host is little-endian with a 64-bit `size_t` and `streamoff` and a 32-bit
  `int` (the platform the program targets); all structs are packed
  (`#pragma pack(push, 1)`).
* Objects that the program reads before writing them (the local `RecordHeader`,
  the record structs, the `new char[]` buffer and the memory that follows them)
  hold indeterminate bytes. They are supplied by a `Junk` value per loop
  iteration, so every theorem quantifies over them.
* An exception that nothing catches ends the program; it is the `terminated`
  outcome.
* `currentLevel` is an unbounded integer: overflow of the 32-bit `int` needs
  more than `2^30` nested push records and is outside the model.
-/

namespace OpenFlight

/-! ## Bytes and integers -/

abbrev Byte := Fin 256

/-- Value of an unsigned integer object from its bytes in memory order
(little-endian host). -/
def ofBytesLE : List Byte → Nat
  | [] => 0
  | b :: bs => b.val + 256 * ofBytesLE bs

/-- The `size` bytes of an unsigned integer object in memory order
(little-endian host). -/
def toBytesLE : Nat → Nat → List Byte
  | 0, _ => []
  | n + 1, v => ⟨v % 256, Nat.mod_lt _ (by decide)⟩ :: toBytesLE n (v / 256)

/-- `std::swap(converter.bytes[i], converter.bytes[j])`. -/
def swapBytes (bytes : List Byte) (i j : Nat) : List Byte :=
  (bytes.set i (bytes.getD j 0)).set j (bytes.getD i 0)

/-- The first `k` iterations of the loop
`for (i = 0; i < sizeof(T) / 2; ++i) swap(bytes[i], bytes[sizeof(T) - 1 - i])`. -/
def swapLoop (size : Nat) : Nat → List Byte → List Byte
  | 0, bytes => bytes
  | k + 1, bytes => swapBytes (swapLoop size k bytes) k (size - 1 - k)

/-- `swap_endian<T>` on the bit pattern of a `size`-byte integer: store the
value in the union, run the swap loop over its bytes, read the value back. -/
def swap_endian (size : Nat) (value : Nat) : Nat :=
  ofBytesLE (swapLoop size (size / 2) (toBytesLE size value))

/-- Two's-complement reading of the low `w` bits of `u`. -/
def toSigned (w : Nat) (u : Nat) : Int :=
  if u % 2 ^ w < 2 ^ (w - 1) then ((u % 2 ^ w : Nat) : Int)
  else ((u % 2 ^ w : Nat) : Int) - ((2 ^ w : Nat) : Int)

/-- Bit pattern to `int16_t`. -/
def toInt16 (u : Nat) : Int := toSigned 16 u

/-- Bit pattern to `int`. -/
def toInt32 (u : Nat) : Int := toSigned 32 u

/-- Bit pattern to `streamoff`. -/
def toInt64 (u : Nat) : Int := toSigned 64 u

/-- `uint16_t - size_t` in `size_t` arithmetic: `a - b` modulo `2^64`. -/
def subSizeT (a b : Nat) : Nat := (a + 2 ^ 64 - b % 2 ^ 64) % 2 ^ 64

/-! ## Text -/

/-- The character a byte prints as. -/
def toChar (b : Byte) : Char := Char.ofNat b.val

/-- `std::string(const char*)`: the characters from the start of `mem` up to,
not including, the first zero byte. `mem` is the memory from the pointer on,
past the end of the array the pointer belongs to as well; a list that ends
without a zero byte stands for memory whose next byte is zero. -/
def string (mem : List Byte) : List Char :=
  (mem.takeWhile (fun b => b ≠ 0)).map toChar

/-- `std::to_string(int)`: decimal digits with a leading minus sign for a
negative value. -/
def to_string (v : Int) : List Char :=
  if v < 0 then '-' :: Nat.toDigits 10 v.natAbs else Nat.toDigits 10 v.toNat

/-! ## The input stream -/

/-- State of the `std::ifstream`. -/
structure IfStream where
  content : List Byte
  pos : Nat
  eofbit : Bool
  failbit : Bool
  gcount : Nat
deriving DecidableEq, Repr

/-- `ifstream file(filename, ios::binary)`: `none` is a file that cannot be
opened, which leaves `failbit` set. -/
def IfStream.opened : Option (List Byte) → IfStream
  | none => { content := [], pos := 0, eofbit := false, failbit := true, gcount := 0 }
  | some bytes => { content := bytes, pos := 0, eofbit := false, failbit := false, gcount := 0 }

/-- `good()`: no state bit is set. -/
def IfStream.good (f : IfStream) : Bool := !f.eofbit && !f.failbit

/-- `fail()`, the negation of `operator bool`. -/
def IfStream.fail (f : IfStream) : Bool := f.failbit

/-- `read(buf, n)`: unless the stream is good the sentry sets `failbit` and
nothing is extracted; otherwise up to `n` bytes are extracted, and extracting
fewer than `n` sets `eofbit` and `failbit`. Returns the stream and the bytes
stored at the start of `buf`. -/
def IfStream.read (f : IfStream) (n : Nat) : IfStream × List Byte :=
  if f.good then
    let got := (f.content.drop f.pos).take n
    ({ f with pos := f.pos + got.length, gcount := got.length,
              eofbit := decide (got.length < n), failbit := decide (got.length < n) }, got)
  else ({ f with failbit := true, gcount := 0 }, [])

/-- `seekg(off, ios::cur)`: `eofbit` is cleared first; a failed stream is left
alone; a target before the start of the file fails and sets `failbit`; any
other target, also one past the end of the file, becomes the position. -/
def IfStream.seekg (f : IfStream) (off : Int) : IfStream :=
  if f.failbit then { f with eofbit := false }
  else if (f.pos : Int) + off < 0 then { f with eofbit := false, failbit := true }
  else { f with eofbit := false, pos := ((f.pos : Int) + off).toNat }

/-! ## The parser -/

/-- Indeterminate memory seen by one iteration of the record loop: the prior
contents of the local `RecordHeader`, of the record struct from its `id` field
on together with the stack above it, and of the heap from the start of the
`new char[]` buffer on. -/
structure Junk where
  header : List Byte
  record : List Byte
  heap : List Byte

/-- Memory of an object of `size` bytes, and what follows it, after a read
stored `got` at its start: the bytes read, then the prior contents. Prior
contents shorter than the object are extended with zero bytes. -/
def fill (size : Nat) (got old : List Byte) : List Byte :=
  got ++ old.drop got.length ++ List.replicate (size - (got ++ old.drop got.length).length) 0

/-- Uncaught exceptions. -/
inductive Thrown where
  | length_error
  | bad_array_new_length
deriving DecidableEq, Repr

/-- The `OpenFlightParser` object with its stream and standard output (the
lines written so far, oldest first). -/
structure Parser where
  file : IfStream
  currentLevel : Int
  cout : List (List Char)
deriving DecidableEq, Repr

/-- `printWithIndent`: `string(currentLevel * 2, ' ')` converts the count to
`size_t`, so a negative count exceeds `max_size()` and throws
`std::length_error` before anything is written. -/
def printWithIndent (p : Parser) (text : List Char) (type : String) : Except Thrown Parser :=
  if p.currentLevel * 2 < 0 then .error .length_error
  else .ok { p with cout := p.cout ++
    [List.replicate (p.currentLevel * 2).toNat ' ' ++ type.toList ++ ": ".toList ++ text] }

/-- The tail shared by the fixed-size decoders:
`int remaining = header.length - sizeof(rec); if (remaining > 0) seekg(remaining, cur)`. -/
def skipRemaining (p : Parser) (length size : Nat) : Parser :=
  let remaining := toInt32 (subSizeT length size)
  if remaining > 0 then { p with file := p.file.seekg remaining } else p

/-- `parseHeader`. -/
def parseHeader (j : Junk) (p : Parser) (length : Nat) : Except Thrown Parser :=
  let r := p.file.read 8
  let id := fill 8 r.2 j.record
  match printWithIndent { p with file := r.1 } (string id) "Header" with
  | .error e => .error e
  | .ok p1 => .ok (skipRemaining p1 length 12)

/-- `parseGroup`. -/
def parseGroup (j : Junk) (p : Parser) (length : Nat) : Except Thrown Parser :=
  let r := p.file.read 8
  let id := fill 8 r.2 j.record
  match printWithIndent { p with file := r.1 } (string id) "Group" with
  | .error e => .error e
  | .ok p1 => .ok (skipRemaining p1 length 12)

/-- `parseObject`. -/
def parseObject (j : Junk) (p : Parser) (length : Nat) : Except Thrown Parser :=
  let r := p.file.read 8
  let id := fill 8 r.2 j.record
  match printWithIndent { p with file := r.1 } (string id) "Object" with
  | .error e => .error e
  | .ok p1 => .ok (skipRemaining p1 length 12)

/-- Store a 16-bit value at byte offset `i` of `mem`. -/
def store16 (mem : List Byte) (i : Nat) (v : Nat) : List Byte :=
  (mem.set i ((toBytesLE 2 v).getD 0 0)).set (i + 1) ((toBytesLE 2 v).getD 1 0)

/-- Load a 16-bit value from byte offset `i` of `mem`. -/
def load16 (mem : List Byte) (i : Nat) : Nat :=
  ofBytesLE [mem.getD i 0, mem.getD (i + 1) 0]

/-- The text `parseFace` builds from the struct after the read. `face` is the
struct from `face.id` on (record offset 4), so `colorNameIndex` is at offset
16 and `materialIndex` at offset 26 of it: both fields are byte-swapped in
place, then `string(face.id) + " (Material Index: " + to_string(materialIndex)
+ " (Color Index : " + to_string(colorNameIndex) + ")"`. -/
def faceInfo (face : List Byte) : List Char :=
  let face1 := store16 face 16 (swap_endian 2 (load16 face 16))
  let face2 := store16 face1 26 (swap_endian 2 (load16 face1 26))
  string face2 ++ " (Material Index: ".toList ++
    to_string (toInt16 (load16 face2 26)) ++ " (Color Index : ".toList ++
    to_string (load16 face2 16) ++ ")".toList

/-- `parseFace`. -/
def parseFace (j : Junk) (p : Parser) (length : Nat) : Except Thrown Parser :=
  let r := p.file.read 28
  let face := fill 28 r.2 j.record
  match printWithIndent { p with file := r.1 } (faceInfo face) "Face" with
  | .error e => .error e
  | .ok p1 => .ok (skipRemaining p1 length 32)

/-- `parsePushLevel`. -/
def parsePushLevel (p : Parser) : Parser := { p with currentLevel := p.currentLevel + 1 }

/-- `parsePopLevel`. -/
def parsePopLevel (p : Parser) : Parser := { p with currentLevel := p.currentLevel - 1 }

/-- `case 33`: `new char[header.length - 4]` throws for a negative count; the
buffer is then printed as a C string. -/
def parseLongId (j : Junk) (p : Parser) (length : Nat) : Except Thrown Parser :=
  let n : Int := (length : Int) - 4
  if n < 0 then .error .bad_array_new_length
  else
    let r := p.file.read n.toNat
    let fullName := fill n.toNat r.2 j.heap
    printWithIndent { p with file := r.1 } (string fullName) "Full ID"

/-- The `default` branch: `file.seekg(header.length - sizeof(header), ios::cur)`. -/
def skipRecord (p : Parser) (length : Nat) : Parser :=
  { p with file := p.file.seekg (toInt64 (subSizeT length 4)) }

/-- The `switch (header.opcode)`. -/
def dispatch (j : Junk) (p : Parser) (opcode : Int) (length : Nat) : Except Thrown Parser :=
  if opcode = 1 then parseHeader j p length
  else if opcode = 2 then parseGroup j p length
  else if opcode = 4 then parseObject j p length
  else if opcode = 5 then parseFace j p length
  else if opcode = 10 then .ok (parsePushLevel p)
  else if opcode = 11 then .ok (parsePopLevel p)
  else if opcode = 33 then parseLongId j p length
  else .ok (skipRecord p length)

/-- How one execution of the loop body ends. -/
inductive Step where
  | next (p : Parser)
  | leave (p : Parser)
  | throw (e : Thrown) (cout : List (List Char))
deriving DecidableEq, Repr

/-- The opcode the loop dispatches on, from the memory of `header`. -/
def headerOpcode (header : List Byte) : Int :=
  toInt16 (swap_endian 2 (load16 header 0))

/-- The declared length the loop uses, from the memory of `header`. -/
def headerLength (header : List Byte) : Nat :=
  swap_endian 2 (load16 header 2)

/-- The body of `while (file)`: read the header, `break` when no byte was
read, normalise the two fields and dispatch. -/
def iteration (j : Junk) (p : Parser) : Step :=
  let r := p.file.read 4
  if r.1.gcount = 0 then .leave { p with file := r.1 }
  else
    let header := fill 4 r.2 j.header
    match dispatch j { p with file := r.1 } (headerOpcode header) (headerLength header) with
    | .error e => .throw e p.cout
    | .ok p1 => .next p1

/-- How the program leaves `parseFile`. -/
inductive Outcome where
  | returned (value : Bool) (p : Parser)
  | terminated (e : Thrown) (cout : List (List Char))
deriving DecidableEq, Repr

/-- The loop `while (file) { ... }` followed by `return true`, run for at most
`fuel` header reads; `none` when the loop is still running after them.
`junk i` is the indeterminate memory of the `i`-th iteration from here. -/
def loop : Nat → (Nat → Junk) → Parser → Option Outcome
  | 0, _, _ => none
  | fuel + 1, junk, p =>
    if p.file.fail then some (.returned true p)
    else
      match iteration (junk 0) p with
      | .leave p1 => some (.returned true p1)
      | .throw e out => some (.terminated e out)
      | .next p1 => loop fuel (fun i => junk (i + 1)) p1

/-- A fresh parser on a just-opened file. -/
def Parser.start (disk : Option (List Byte)) : Parser :=
  { file := IfStream.opened disk, currentLevel := 0, cout := [] }

/-- `parseFile`: `disk` is the content of the named file, `none` when it
cannot be opened. -/
def parseFile (fuel : Nat) (junk : Nat → Junk) (disk : Option (List Byte)) : Option Outcome :=
  if (Parser.start disk).file.fail then some (.returned false (Parser.start disk))
  else loop fuel junk (Parser.start disk)

/-- Exit status of `main`: `some code` when it returns, `none` when the
program ends on an uncaught exception or the loop is still running. -/
def main (fuel : Nat) (junk : Nat → Junk) (argc : Nat) (disk : Option (List Byte)) :
    Option Nat :=
  if argc ≠ 2 then some 1
  else
    match parseFile fuel junk disk with
    | some (.returned false _) => some 2
    | some (.returned true _) => some 0
    | _ => none

/-! ## Records as laid out in the stream -/

/-- One record of the stream: the four header bytes and the bytes that follow
them up to the next record. -/
structure Record where
  op0 : Byte
  op1 : Byte
  len0 : Byte
  len1 : Byte
  payload : List Byte
deriving DecidableEq, Repr

/-- The bytes of a record in stream order. -/
def Record.bytes (r : Record) : List Byte :=
  [r.op0, r.op1, r.len0, r.len1] ++ r.payload

/-- The big-endian signed opcode of a record. -/
def Record.opcode (r : Record) : Int := toInt16 (256 * r.op0.val + r.op1.val)

/-- The big-endian unsigned declared length of a record. -/
def Record.length (r : Record) : Nat := 256 * r.len0.val + r.len1.val

/-- The byte stream made of the records in order. -/
def stream : List Record → List Byte
  | [] => []
  | r :: rs => r.bytes ++ stream rs

/-- Sum of the declared lengths. -/
def declaredTotal : List Record → Nat
  | [] => 0
  | r :: rs => r.length + declaredTotal rs

/-- Opcodes whose decoder writes a line. -/
def emitsLine (opcode : Int) : Prop :=
  opcode = 1 ∨ opcode = 2 ∨ opcode = 4 ∨ opcode = 5 ∨ opcode = 33

instance (opcode : Int) : Decidable (emitsLine opcode) := by
  unfold emitsLine; infer_instance

/-- Bytes the decoder of an opcode reads from the record whatever the declared
length is, header included: the packed struct size for opcodes 1, 2, 4 and 5,
the header alone otherwise. -/
def decoderSize (opcode : Int) : Nat :=
  if opcode = 1 ∨ opcode = 2 ∨ opcode = 4 then 12 else if opcode = 5 then 32 else 4

/-- The declared bytes are all present and the declared length is at least
the header size. -/
def Record.WellFramed (r : Record) : Prop :=
  4 ≤ r.length ∧ r.payload.length + 4 = r.length

instance (r : Record) : Decidable r.WellFramed := by
  unfold Record.WellFramed; infer_instance

/-- The declared bytes are all present and the declared length covers what the
decoder of the opcode reads: at least 12 for opcodes 1, 2 and 4, at least 32
for opcode 5, exactly 4 for opcodes 10 and 11, at least 4 otherwise. -/
def Record.Fits (r : Record) : Prop :=
  r.payload.length + 4 = r.length ∧ decoderSize r.opcode ≤ r.length ∧
    (r.opcode = 10 ∨ r.opcode = 11 → r.length = 4)

instance (r : Record) : Decidable r.Fits := by
  unfold Record.Fits; infer_instance

/-- Change of the nesting depth a record stands for. -/
def Record.delta (r : Record) : Int :=
  if r.opcode = 10 then 1 else if r.opcode = 11 then -1 else 0

/-- Nesting depth after the records, from depth `d`. -/
def depthAfter (d : Int) : List Record → Int
  | [] => d
  | r :: rs => depthAfter (d + r.delta) rs

/-- No line-writing record of the list is met at a negative depth, from depth
`d`. -/
def NoNegativeEmit (d : Int) : List Record → Prop
  | [] => True
  | r :: rs => (emitsLine r.opcode → 0 ≤ d) ∧ NoNegativeEmit (d + r.delta) rs

instance NoNegativeEmit.decidable : (d : Int) → (rs : List Record) → Decidable (NoNegativeEmit d rs)
  | _, [] => isTrue trivial
  | d, r :: rs =>
    have := NoNegativeEmit.decidable (d + r.delta) rs
    inferInstanceAs (Decidable ((emitsLine r.opcode → 0 ≤ d) ∧ NoNegativeEmit (d + r.delta) rs))

/-- The kind printed for a line-writing opcode. -/
def kindOf (opcode : Int) : String :=
  if opcode = 1 then "Header" else if opcode = 2 then "Group"
  else if opcode = 4 then "Object" else if opcode = 5 then "Face" else "Full ID"

/-- The text printed for a record whose declared bytes are present; `j` is the
indeterminate memory an identifier without a zero byte runs into. -/
def Record.text (j : Junk) (r : Record) : List Char :=
  if r.opcode = 1 ∨ r.opcode = 2 ∨ r.opcode = 4 then string (fill 8 (r.payload.take 8) j.record)
  else if r.opcode = 5 then faceInfo (fill 28 (r.payload.take 28) j.record)
  else string (fill r.payload.length r.payload j.heap)

/-- The lines a record adds to the output at depth `d`. -/
def Record.lines (j : Junk) (d : Int) (r : Record) : List (List Char) :=
  if emitsLine r.opcode then
    [List.replicate (d * 2).toNat ' ' ++ (kindOf r.opcode).toList ++ ": ".toList ++ r.text j]
  else []

/-- The lines the records add to the output from depth `d`; `junk i` belongs
to the `i`-th record. -/
def linesOf (junk : Nat → Junk) (d : Int) : List Record → List (List Char)
  | [] => []
  | r :: rs => r.lines (junk 0) d ++ linesOf (fun i => junk (i + 1)) (d + r.delta) rs

/-- The parser after exactly `n` completed executions of the loop body, `none`
when the loop ends or the program terminates before that. -/
def steps : Nat → (Nat → Junk) → Parser → Option Parser
  | 0, _, p => some p
  | n + 1, junk, p =>
    if p.file.fail then none
    else
      match iteration (junk 0) p with
      | .next p1 => steps n (fun i => junk (i + 1)) p1
      | _ => none

/-- The stream cursor after the first `n` records of the file have been
processed by the loop of `parseFile`. -/
def cursorAfter (n : Nat) (junk : Nat → Junk) (bytes : List Byte) : Option Nat :=
  (steps n junk (Parser.start (some bytes))).map (fun p => p.file.pos)

/-- Payload bytes the decoder of an opcode asks the stream for: 8 for opcodes
1, 2 and 4, 28 for opcode 5, the declared length less the header for opcode
33, none for any other opcode. -/
def payloadRead (opcode : Int) (length : Nat) : Nat :=
  if opcode = 1 ∨ opcode = 2 ∨ opcode = 4 then 8
  else if opcode = 5 then 28
  else if opcode = 33 then length - 4
  else 0

/-- Number of push-level records. -/
def pushCount : List Record → Nat
  | [] => 0
  | r :: rs => (if r.opcode = 10 then 1 else 0) + pushCount rs

/-- Number of pop-level records. -/
def popCount : List Record → Nat
  | [] => 0
  | r :: rs => (if r.opcode = 11 then 1 else 0) + popCount rs

/-- The depth is never negative before, between or after the records, from
depth `d`. -/
def DepthNeverNegative (d : Int) : List Record → Prop
  | [] => 0 ≤ d
  | r :: rs => 0 ≤ d ∧ DepthNeverNegative (d + r.delta) rs

instance DepthNeverNegative.decidable :
    (d : Int) → (rs : List Record) → Decidable (DepthNeverNegative d rs)
  | d, [] => inferInstanceAs (Decidable (0 ≤ d))
  | d, r :: rs =>
    have := DepthNeverNegative.decidable (d + r.delta) rs
    inferInstanceAs (Decidable (0 ≤ d ∧ DepthNeverNegative (d + r.delta) rs))

/-- Number of line-writing records (opcode 1, 2, 4, 5 or 33). -/
def eventCount : List Record → Nat
  | [] => 0
  | r :: rs => (if emitsLine r.opcode then 1 else 0) + eventCount rs

/-- Bytes consumed per record as the specification words it: `max(L, 12)` for
opcodes 1, 2 and 4, `max(L, 32)` for opcode 5, 4 for opcodes 10 and 11, `L`
for opcode 33 and unknown opcodes. -/
def consumed (opcode : Int) (length : Nat) : Nat :=
  if opcode = 1 ∨ opcode = 2 ∨ opcode = 4 then max length 12
  else if opcode = 5 then max length 32
  else if opcode = 10 ∨ opcode = 11 then 4
  else length

/-! ## Proof devices -/

/-- The stream is good, `pre` has been consumed and `rest` is still to come. -/
def At (f : IfStream) (pre rest : List Byte) : Prop :=
  f.content = pre ++ rest ∧ f.pos = pre.length ∧ f.eofbit = false ∧ f.failbit = false

/-- The common body of `parseHeader`, `parseGroup` and `parseObject`. -/
def parseId (type : String) (j : Junk) (p : Parser) (length : Nat) : Except Thrown Parser :=
  let r := p.file.read 8
  let id := fill 8 r.2 j.record
  match printWithIndent { p with file := r.1 } (string id) type with
  | .error e => .error e
  | .ok p1 => .ok (skipRemaining p1 length 12)

/-! ## Sample streams -/

/-- Indeterminate memory that happens to hold nothing but zero bytes. -/
def zeroJunk : Nat → Junk := fun _ => ⟨[], [], []⟩

/-- A push-level record that declares eight bytes and carries the four bytes
it declares beyond its header. -/
def longPush : Record := ⟨0, 10, 0, 8, [0, 0, 0, 0]⟩

/-- A file with six records that fit their decoders: Header `db`, push,
Object `A` with two trailing bytes, an unknown record of opcode 999, a Long ID
and pop. -/
def fittingRecords : List Record :=
  [⟨0, 1, 0, 12, [100, 98, 0, 0, 0, 0, 0, 0]⟩,
   ⟨0, 10, 0, 4, []⟩,
   ⟨0, 4, 0, 14, [65, 0, 0, 0, 0, 0, 0, 0, 7, 7]⟩,
   ⟨3, 231, 0, 6, [1, 2]⟩,
   ⟨0, 33, 0, 7, [105, 100, 0]⟩,
   ⟨0, 11, 0, 4, []⟩]

/-- A Face record: opcode 5, declared length 32, id `F1`, colour name index 5
in the bytes at record offsets 20 and 21, material index 7 in the bytes at
record offsets 30 and 31. -/
def faceRecord : Record :=
  ⟨0, 5, 0, 32, [70, 49, 0, 0, 0, 0, 0, 0, 1, 2, 3, 4, 5, 6, 7, 8, 0, 5, 0, 0, 0, 0, 0, 0, 0,
    0, 0, 7]⟩

/-- The file that holds `faceRecord` alone. -/
def faceSample : List Byte :=
  [0, 5, 0, 32, 70, 49, 0, 0, 0, 0, 0, 0, 1, 2, 3, 4, 5, 6, 7, 8, 0, 5, 0, 0, 0, 0, 0, 0, 0,
    0, 0, 7]

/-- A pop-level record. -/
def popRecord : Record := ⟨0, 11, 0, 4, []⟩

/-- An Object record with id `Y`. -/
def objectY : Record := ⟨0, 4, 0, 12, [89, 0, 0, 0, 0, 0, 0, 0]⟩

/-- The file Pop, Object(`Y`). -/
def popThenObject : List Byte :=
  [0, 11, 0, 4, 0, 4, 0, 12, 89, 0, 0, 0, 0, 0, 0, 0]

/-- The file that holds one record of the unknown opcode 999 with declared
length 0. -/
def zeroLengthUnknown : List Byte := [3, 231, 0, 0]

/-- The file that holds a Group record of declared length 12 cut off after
the first two of its eight id bytes, `AB`. -/
def truncatedGroup : List Byte := [0, 2, 0, 12, 65, 66]

/-- The file that holds a Group record `A` of declared length 0 followed by an
Object record `B` of declared length 12. -/
def shortLengthFile : List Byte :=
  [0, 2, 0, 0, 65, 0, 0, 0, 0, 0, 0, 0, 0, 4, 0, 12, 66, 0, 0, 0, 0, 0, 0, 0]

/-- The file that holds a Long ID record of declared length 7 whose three
payload bytes are `A`, a zero byte and `B`. -/
def longIdWithZero : List Byte := [0, 33, 0, 7, 65, 0, 66]

/-- The file that holds a record of the unknown opcode 999 with declared
length 6 followed by a push-level record. -/
def unknownThenPush : List Byte := [3, 231, 0, 6, 1, 2, 0, 10, 0, 4]

/-- A push-level record that declares eight bytes, the four beyond its header
being the bytes of a pop-level record. -/
def pushHidingPop : Record := ⟨0, 10, 0, 8, [0, 11, 0, 4]⟩

/-- A push-level record. -/
def pushRecord : Record := ⟨0, 10, 0, 4, []⟩

/-- An Object record with id `X`. -/
def objectX : Record := ⟨0, 4, 0, 12, [88, 0, 0, 0, 0, 0, 0, 0]⟩

/-- The file Push, Push, Object(`X`), Pop. -/
def nestedObject : List Byte :=
  [0, 10, 0, 4, 0, 10, 0, 4, 0, 4, 0, 12, 88, 0, 0, 0, 0, 0, 0, 0, 0, 11, 0, 4]

/-- The two-byte file that holds the opcode of a push-level record and nothing
else. -/
def halfPushHeader : List Byte := [0, 10]

/-- The three-byte file that holds the opcode of a Header record and the first
byte of its length. -/
def partialHeader : List Byte := [0, 1, 0]

/-- The file that holds a Header record whose id `ABCDEFGH` fills all eight
bytes. -/
def fullIdHeader : List Byte := [0, 1, 0, 12, 65, 66, 67, 68, 69, 70, 71, 72]

/-- Indeterminate memory in which the two bytes on the stack right after the
record struct are `I` and `J`, followed by a zero byte. -/
def stackJunk : Nat → Junk := fun _ => ⟨[], [0, 0, 0, 0, 0, 0, 0, 0, 73, 74, 0], []⟩

/-- A push-level record of declared length 8 whose four further bytes are the
header of an Object record, followed by a record of the unknown opcode 16640
and declared length 8 whose first byte is `A`. -/
def hiddenObject : List Record :=
  [⟨0, 10, 0, 8, [0, 4, 0, 12]⟩, ⟨65, 0, 0, 8, [0, 0, 0, 0]⟩]

/-- An Object record with id `Y`, declared length 14 and two trailing bytes. -/
def objectLong : Record := ⟨0, 4, 0, 14, [89, 0, 0, 0, 0, 0, 0, 0, 7, 7]⟩

/-- The file Pop, Object(`Y`) in which the Object record declares 14 bytes. -/
def popThenLongObject : List Byte :=
  [0, 11, 0, 4, 0, 4, 0, 14, 89, 0, 0, 0, 0, 0, 0, 0, 7, 7]

/-- The file that holds a record of the unknown opcode 999 with declared
length 2 followed by two more bytes. -/
def shortUnknown : List Byte := [3, 231, 0, 2, 9, 9]

/-! ## Integer conversions -/

theorem swap_endian_two (a b : Byte) :
    swap_endian 2 (a.val + 256 * b.val) = b.val + 256 * a.val := by
  have ha := a.isLt
  have hb := b.isLt
  simp [swap_endian, ofBytesLE, toBytesLE, swapLoop, swapBytes]
  omega

theorem headerOpcode_fill (b0 b1 b2 b3 : Byte) (old : List Byte) :
    headerOpcode (fill 4 [b0, b1, b2, b3] old) = toInt16 (256 * b0.val + b1.val) := by
  simp [headerOpcode, fill, load16, swap_endian_two, ofBytesLE]
  congr 1; omega

theorem headerLength_fill (b0 b1 b2 b3 : Byte) (old : List Byte) :
    headerLength (fill 4 [b0, b1, b2, b3] old) = 256 * b2.val + b3.val := by
  simp [headerLength, fill, load16, swap_endian_two, ofBytesLE]
  omega

theorem toInt32_subSizeT (length size : Nat) (hl : length < 65536) (hs : size < 65536) :
    toInt32 (subSizeT length size) = (length : Int) - size := by
  unfold toInt32 toSigned subSizeT
  have h1 : size % 2 ^ 64 = size := Nat.mod_eq_of_lt (by omega)
  rw [h1]
  by_cases h : size ≤ length
  · have h2 : (length + 2 ^ 64 - size) % 2 ^ 64 = length - size := by omega
    rw [h2]
    have h3 : (length - size) % 2 ^ 32 = length - size := Nat.mod_eq_of_lt (by omega)
    rw [h3]
    split <;> omega
  · have h2 : (length + 2 ^ 64 - size) % 2 ^ 64 = length + 2 ^ 64 - size := by omega
    rw [h2]
    have h3 : (length + 2 ^ 64 - size) % 2 ^ 32 = 2 ^ 32 + length - size := by omega
    rw [h3]
    split <;> omega

theorem toInt64_subSizeT (length size : Nat) (hl : length < 65536) (hs : size < 65536) :
    toInt64 (subSizeT length size) = (length : Int) - size := by
  unfold toInt64 toSigned subSizeT
  have h1 : size % 2 ^ 64 = size := Nat.mod_eq_of_lt (by omega)
  rw [h1]
  by_cases h : size ≤ length
  · have h2 : (length + 2 ^ 64 - size) % 2 ^ 64 = length - size := by omega
    rw [h2]
    have h3 : (length - size) % 2 ^ 64 = length - size := Nat.mod_eq_of_lt (by omega)
    rw [h3]
    split <;> omega
  · have h2 : (length + 2 ^ 64 - size) % 2 ^ 64 = length + 2 ^ 64 - size := by omega
    rw [h2]
    have h3 : (length + 2 ^ 64 - size) % 2 ^ 64 = 2 ^ 64 + length - size := by omega
    rw [h3]
    split <;> omega

/-! ## Stream lemmas -/

theorem At.pos_eq {f : IfStream} {pre rest : List Byte} (h : At f pre rest) :
    f.pos = pre.length := h.2.1

theorem At.not_fail {f : IfStream} {pre rest : List Byte} (h : At f pre rest) :
    f.fail = false := h.2.2.2

theorem read_at {f : IfStream} {pre rest : List Byte} (bs : List Byte)
    (h : At f pre (bs ++ rest)) :
    (f.read bs.length).2 = bs ∧ At (f.read bs.length).1 (pre ++ bs) rest ∧
      (f.read bs.length).1.gcount = bs.length := by
  obtain ⟨hc, hp, he, hf⟩ := h
  have hg : f.good = true := by simp [IfStream.good, he, hf]
  have hd : List.take bs.length (List.drop f.pos f.content) = bs := by
    rw [hc, hp, List.drop_left, List.take_left]
  simp only [IfStream.read, hg, if_true, hd]
  refine ⟨trivial, ⟨?_, ?_, ?_, ?_⟩, trivial⟩
  · simp [hc]
  · simp [hp]
  · simp
  · simp

/-- A read that asks for more than is left stores what is left and fails the
stream. -/
theorem read_short {f : IfStream} {pre rest : List Byte} (n : Nat)
    (h : At f pre rest) (hn : rest.length < n) :
    (f.read n).2 = rest ∧ (f.read n).1.failbit = true ∧
      (f.read n).1.gcount = rest.length := by
  obtain ⟨hc, hp, he, hf⟩ := h
  have hg : f.good = true := by simp [IfStream.good, he, hf]
  have hd : List.take n (List.drop f.pos f.content) = rest := by
    rw [hc, hp, List.drop_left, List.take_of_length_le (by omega)]
  simp only [IfStream.read, hg, if_true, hd]
  refine ⟨trivial, ?_, trivial⟩
  simp [hn]

theorem read_failbit (f : IfStream) (n : Nat) (h : f.failbit = true) :
    (f.read n).1.failbit = true ∧ (f.read n).2 = [] ∧ (f.read n).1.gcount = 0 := by
  simp [IfStream.read, IfStream.good, h]

theorem seekg_failbit (f : IfStream) (off : Int) (h : f.failbit = true) :
    (f.seekg off).failbit = true := by
  simp [IfStream.seekg, h]

theorem seekg_at {f : IfStream} {pre rest : List Byte} (bs : List Byte)
    (h : At f pre (bs ++ rest)) : At (f.seekg (bs.length : Int)) (pre ++ bs) rest := by
  obtain ⟨hc, hp, he, hf⟩ := h
  have h0 : ¬ ((f.pos : Int) + (bs.length : Int) < 0) := by omega
  simp only [IfStream.seekg, hf, h0, if_false, Bool.false_eq_true]
  refine ⟨by simp [hc], ?_, rfl, rfl⟩
  simp [hp]
  omega

/-- A forward seek on a good stream moves the position by the offset, also
past the end of the file. -/
theorem seekg_forward (f : IfStream) (n : Nat) (hf : f.failbit = false) :
    f.seekg (n : Int) = { f with eofbit := false, pos := f.pos + n } := by
  have h0 : ¬ ((f.pos : Int) + (n : Int) < 0) := by omega
  simp only [IfStream.seekg, hf, h0, if_false, Bool.false_eq_true]
  congr 1

/-! ## One loop iteration -/

theorem iteration_header (j : Junk) (p : Parser) (pre rest : List Byte) (b0 b1 b2 b3 : Byte)
    (h : At p.file pre ([b0, b1, b2, b3] ++ rest)) :
    At (p.file.read 4).1 (pre ++ [b0, b1, b2, b3]) rest ∧
    iteration j p =
      (match dispatch j { p with file := (p.file.read 4).1 }
          (toInt16 (256 * b0.val + b1.val)) (256 * b2.val + b3.val) with
        | .error e => Step.throw e p.cout
        | .ok p1 => Step.next p1) := by
  obtain ⟨h2, hat, hg⟩ := read_at [b0, b1, b2, b3] h
  simp only [List.length_cons, List.length_nil] at h2 hat hg
  refine ⟨hat, ?_⟩
  unfold iteration
  simp only [hg, h2, headerOpcode_fill, headerLength_fill]
  simp

theorem Record.length_lt (r : Record) : r.length < 65536 := by
  have h0 := r.len0.isLt
  have h1 := r.len1.isLt
  unfold Record.length
  omega

theorem printWithIndent_ok (p : Parser) (text : List Char) (type : String)
    (hd : 0 ≤ p.currentLevel) :
    printWithIndent p text type = .ok { p with cout := p.cout ++
      [List.replicate (p.currentLevel * 2).toNat ' ' ++ type.toList ++ ": ".toList ++ text] } := by
  have h : ¬ (p.currentLevel * 2 < 0) := by omega
  simp [printWithIndent, h]

theorem printWithIndent_neg (p : Parser) (text : List Char) (type : String)
    (hd : p.currentLevel < 0) :
    printWithIndent p text type = .error .length_error := by
  have h : p.currentLevel * 2 < 0 := by omega
  simp [printWithIndent, h]

theorem skipRemaining_le (p : Parser) (length size : Nat) (hl : length < 65536)
    (hs : size < 65536) (h : length ≤ size) : skipRemaining p length size = p := by
  have h1 : ¬ ((length : Int) - size > 0) := by omega
  simp [skipRemaining, toInt32_subSizeT length size hl hs, h1]

theorem skipRemaining_at (p : Parser) (length size : Nat) (pre extra rest : List Byte)
    (hl : length < 65536) (hs : size < 65536) (hat : At p.file pre (extra ++ rest))
    (h : extra.length + size = length ∨ (extra = [] ∧ length ≤ size)) :
    At (skipRemaining p length size).file (pre ++ extra) rest ∧
      (skipRemaining p length size).currentLevel = p.currentLevel ∧
      (skipRemaining p length size).cout = p.cout := by
  rcases h with h | ⟨h1, h2⟩
  · by_cases hz : extra.length = 0
    · have hle : length ≤ size := by omega
      rw [skipRemaining_le p length size hl hs hle]
      have : extra = [] := List.length_eq_zero.mp hz
      subst this
      simpa using hat
    · have h1 : (extra.length : Int) > 0 := by omega
      have h2 : (length : Int) - size = (extra.length : Int) := by omega
      simp only [skipRemaining, toInt32_subSizeT length size hl hs, h2, h1, if_true]
      exact ⟨seekg_at extra hat, trivial, trivial⟩
  · subst h1
    rw [skipRemaining_le p length size hl hs h2]
    simpa using hat

theorem parseHeader_eq : parseHeader = parseId "Header" := rfl
theorem parseGroup_eq : parseGroup = parseId "Group" := rfl
theorem parseObject_eq : parseObject = parseId "Object" := rfl

theorem parseId_ok (type : String) (j : Junk) (p : Parser) (length : Nat)
    (pre id extra rest : List Byte) (hl : length < 65536)
    (hat : At p.file pre (id ++ (extra ++ rest))) (hid : id.length = 8)
    (h : extra.length + 12 = length ∨ (extra = [] ∧ length ≤ 12))
    (hd : 0 ≤ p.currentLevel) :
    ∃ p1, parseId type j p length = .ok p1 ∧ At p1.file (pre ++ id ++ extra) rest ∧
      p1.currentLevel = p.currentLevel ∧
      p1.cout = p.cout ++ [List.replicate (p.currentLevel * 2).toNat ' ' ++ type.toList ++
        ": ".toList ++ string (fill 8 id j.record)] := by
  obtain ⟨h2, hat1, _⟩ := read_at id hat
  rw [hid] at h2 hat1
  unfold parseId
  simp only [h2]
  rw [printWithIndent_ok _ _ _ (by simpa using hd)]
  simp only
  obtain ⟨ha, hb, hc⟩ := skipRemaining_at
    { file := (p.file.read 8).1, currentLevel := p.currentLevel,
      cout := p.cout ++ [List.replicate (p.currentLevel * 2).toNat ' ' ++ type.toList ++
        ": ".toList ++ string (fill 8 id j.record)] }
    length 12 (pre ++ id) extra rest hl (by decide) hat1 h
  exact ⟨_, rfl, ha, hb, hc⟩

theorem parseFace_ok (j : Junk) (p : Parser) (length : Nat)
    (pre fixed extra rest : List Byte) (hl : length < 65536)
    (hat : At p.file pre (fixed ++ (extra ++ rest))) (hid : fixed.length = 28)
    (h : extra.length + 32 = length ∨ (extra = [] ∧ length ≤ 32))
    (hd : 0 ≤ p.currentLevel) :
    ∃ p1, parseFace j p length = .ok p1 ∧ At p1.file (pre ++ fixed ++ extra) rest ∧
      p1.currentLevel = p.currentLevel ∧
      p1.cout = p.cout ++ [List.replicate (p.currentLevel * 2).toNat ' ' ++ "Face".toList ++
        ": ".toList ++ faceInfo (fill 28 fixed j.record)] := by
  obtain ⟨h2, hat1, _⟩ := read_at fixed hat
  rw [hid] at h2 hat1
  unfold parseFace
  simp only [h2]
  rw [printWithIndent_ok _ _ _ (by simpa using hd)]
  simp only
  obtain ⟨ha, hb, hc⟩ := skipRemaining_at
    { file := (p.file.read 28).1, currentLevel := p.currentLevel,
      cout := p.cout ++ [List.replicate (p.currentLevel * 2).toNat ' ' ++ "Face".toList ++
        ": ".toList ++ faceInfo (fill 28 fixed j.record)] }
    length 32 (pre ++ fixed) extra rest hl (by decide) hat1 h
  exact ⟨_, rfl, ha, hb, hc⟩

theorem parseLongId_ok (j : Junk) (p : Parser) (length : Nat)
    (pre payload rest : List Byte)
    (hat : At p.file pre (payload ++ rest)) (hlen : payload.length + 4 = length)
    (hd : 0 ≤ p.currentLevel) :
    ∃ p1, parseLongId j p length = .ok p1 ∧ At p1.file (pre ++ payload) rest ∧
      p1.currentLevel = p.currentLevel ∧
      p1.cout = p.cout ++ [List.replicate (p.currentLevel * 2).toNat ' ' ++ "Full ID".toList ++
        ": ".toList ++ string (fill payload.length payload j.heap)] := by
  obtain ⟨h2, hat1, _⟩ := read_at payload hat
  have hn : ¬ ((length : Int) - 4 < 0) := by omega
  have hn2 : ((length : Int) - 4).toNat = payload.length := by omega
  unfold parseLongId
  simp only [hn, if_false, hn2, h2]
  rw [printWithIndent_ok _ _ _ (by simpa using hd)]
  exact ⟨_, rfl, hat1, rfl, rfl⟩

theorem skipRecord_at (p : Parser) (length : Nat) (pre payload rest : List Byte)
    (hl : length < 65536)
    (hat : At p.file pre (payload ++ rest)) (hlen : payload.length + 4 = length) :
    At (skipRecord p length).file (pre ++ payload) rest := by
  have h2 : (length : Int) - (4 : Nat) = (payload.length : Int) := by omega
  simp only [skipRecord, toInt64_subSizeT length 4 hl (by decide), h2]
  exact seekg_at payload hat

theorem dispatch_id (j : Junk) (p : Parser) (opcode : Int) (length : Nat)
    (h : opcode = 1 ∨ opcode = 2 ∨ opcode = 4) :
    dispatch j p opcode length = parseId (kindOf opcode) j p length := by
  rcases h with h | h | h <;> subst h <;> rfl

theorem dispatch_face (j : Junk) (p : Parser) (length : Nat) :
    dispatch j p 5 length = parseFace j p length := rfl

theorem dispatch_push (j : Junk) (p : Parser) (length : Nat) :
    dispatch j p 10 length = .ok (parsePushLevel p) := rfl

theorem dispatch_pop (j : Junk) (p : Parser) (length : Nat) :
    dispatch j p 11 length = .ok (parsePopLevel p) := rfl

theorem dispatch_longId (j : Junk) (p : Parser) (length : Nat) :
    dispatch j p 33 length = parseLongId j p length := rfl

theorem dispatch_default (j : Junk) (p : Parser) (opcode : Int) (length : Nat)
    (h1 : opcode ≠ 1) (h2 : opcode ≠ 2) (h4 : opcode ≠ 4) (h5 : opcode ≠ 5)
    (h10 : opcode ≠ 10) (h11 : opcode ≠ 11) (h33 : opcode ≠ 33) :
    dispatch j p opcode length = .ok (skipRecord p length) := by
  unfold dispatch
  rw [if_neg h1, if_neg h2, if_neg h4, if_neg h5, if_neg h10, if_neg h11, if_neg h33]

theorem emitsLine_id {opcode : Int} (h : opcode = 1 ∨ opcode = 2 ∨ opcode = 4) :
    emitsLine opcode := by
  unfold emitsLine; tauto

theorem delta_of_emits (r : Record) (h : emitsLine r.opcode) : r.delta = 0 := by
  unfold emitsLine at h
  unfold Record.delta
  rw [if_neg (by omega), if_neg (by omega)]

theorem lines_of_emits (j : Junk) (d : Int) (r : Record) (h : emitsLine r.opcode) :
    r.lines j d =
      [List.replicate (d * 2).toNat ' ' ++ (kindOf r.opcode).toList ++ ": ".toList ++ r.text j] := by
  unfold Record.lines
  rw [if_pos h]

theorem lines_of_not_emits (j : Junk) (d : Int) (r : Record) (h : ¬ emitsLine r.opcode) :
    r.lines j d = [] := by
  unfold Record.lines
  rw [if_neg h]

theorem text_id (j : Junk) (r : Record) (h : r.opcode = 1 ∨ r.opcode = 2 ∨ r.opcode = 4) :
    r.text j = string (fill 8 (r.payload.take 8) j.record) := by
  unfold Record.text
  rw [if_pos h]

theorem text_face (j : Junk) (r : Record) (h : r.opcode = 5) :
    r.text j = faceInfo (fill 28 (r.payload.take 28) j.record) := by
  unfold Record.text
  rw [if_neg (by omega), if_pos h]

theorem text_longId (j : Junk) (r : Record) (h : r.opcode = 33) :
    r.text j = string (fill r.payload.length r.payload j.heap) := by
  unfold Record.text
  rw [if_neg (by omega), if_neg (by omega)]

theorem kindOf_face : kindOf 5 = "Face" := rfl

theorem kindOf_longId : kindOf 33 = "Full ID" := rfl

/-- A record that fits its decoder is consumed whole: the loop body ends at
the next record with the depth and the output the record stands for. -/
theorem iteration_record (j : Junk) (p : Parser) (r : Record) (pre post : List Byte)
    (hat : At p.file pre (r.bytes ++ post)) (hfit : r.Fits)
    (hd : emitsLine r.opcode → 0 ≤ p.currentLevel) :
    ∃ p1, iteration j p = .next p1 ∧ At p1.file (pre ++ r.bytes) post ∧
      p1.currentLevel = p.currentLevel + r.delta ∧
      p1.cout = p.cout ++ r.lines j p.currentLevel := by
  have hat0 : At p.file pre ([r.op0, r.op1, r.len0, r.len1] ++ (r.payload ++ post)) := by
    simpa [Record.bytes] using hat
  obtain ⟨hat1, heq⟩ := iteration_header j p pre (r.payload ++ post) r.op0 r.op1 r.len0 r.len1 hat0
  rw [heq]
  have hl := r.length_lt
  obtain ⟨hlen, hsize, hpp⟩ := hfit
  have hb : pre ++ r.bytes = pre ++ [r.op0, r.op1, r.len0, r.len1] ++ r.payload := by
    simp [Record.bytes]
  rw [hb]
  have hop : toInt16 (256 * r.op0.val + r.op1.val) = r.opcode := rfl
  have hle : 256 * r.len0.val + r.len1.val = r.length := rfl
  rw [hop, hle]
  by_cases hid : r.opcode = 1 ∨ r.opcode = 2 ∨ r.opcode = 4
  · have hem : emitsLine r.opcode := emitsLine_id hid
    have h12 : 12 ≤ r.length := by simpa [decoderSize, hid] using hsize
    have hsplit : r.payload = r.payload.take 8 ++ r.payload.drop 8 :=
      (List.take_append_drop 8 r.payload).symm
    have hat2 : At ({ p with file := (p.file.read 4).1 } : Parser).file
        (pre ++ [r.op0, r.op1, r.len0, r.len1])
        (r.payload.take 8 ++ (r.payload.drop 8 ++ post)) := by
      rw [← List.append_assoc, ← hsplit]; exact hat1
    obtain ⟨p1, h1, h2, h3, h4⟩ := parseId_ok (kindOf r.opcode) j _ r.length _ _ _ _ hl hat2
      (by simp; omega) (Or.inl (by simp; omega)) (hd hem)
    rw [dispatch_id j _ _ _ hid, h1]
    refine ⟨p1, rfl, ?_, ?_, ?_⟩
    · rw [List.append_assoc _ (List.take 8 r.payload), ← hsplit] at h2; exact h2
    · rw [h3, delta_of_emits r hem]; simp
    · rw [h4, lines_of_emits j _ r hem, text_id j r hid]
  · have hn1 : r.opcode ≠ 1 := fun h => hid (Or.inl h)
    have hn2 : r.opcode ≠ 2 := fun h => hid (Or.inr (Or.inl h))
    have hn4 : r.opcode ≠ 4 := fun h => hid (Or.inr (Or.inr h))
    by_cases h5 : r.opcode = 5
    · have hem : emitsLine r.opcode := Or.inr (Or.inr (Or.inr (Or.inl h5)))
      have h32 : 32 ≤ r.length := by
        have : decoderSize r.opcode = 32 := by rw [h5]; rfl
        omega
      have hsplit : r.payload = r.payload.take 28 ++ r.payload.drop 28 :=
        (List.take_append_drop 28 r.payload).symm
      have hat2 : At ({ p with file := (p.file.read 4).1 } : Parser).file
          (pre ++ [r.op0, r.op1, r.len0, r.len1])
          (r.payload.take 28 ++ (r.payload.drop 28 ++ post)) := by
        rw [← List.append_assoc, ← hsplit]; exact hat1
      obtain ⟨p1, h1, h2, h3, h4⟩ := parseFace_ok j _ r.length _ _ _ _ hl hat2
        (by simp; omega) (Or.inl (by simp; omega)) (hd hem)
      have hdis : dispatch j { p with file := (p.file.read 4).1 } r.opcode r.length =
          parseFace j { p with file := (p.file.read 4).1 } r.length := by
        rw [h5]; rfl
      rw [hdis, h1]
      refine ⟨p1, rfl, ?_, ?_, ?_⟩
      · rw [List.append_assoc _ (List.take 28 r.payload), ← hsplit] at h2; exact h2
      · rw [h3, delta_of_emits r hem]; simp
      · rw [h4, lines_of_emits j _ r hem, text_face j r h5, h5, kindOf_face]
    · by_cases h10 : r.opcode = 10
      · have hem : ¬ emitsLine r.opcode := by unfold emitsLine; omega
        have hp0 : r.payload = [] := by
          have := hpp (Or.inl h10)
          exact List.length_eq_zero.mp (by omega)
        have hdis : dispatch j { p with file := (p.file.read 4).1 } r.opcode r.length =
            .ok (parsePushLevel { p with file := (p.file.read 4).1 }) := by
          rw [h10]; rfl
        rw [hdis]
        refine ⟨_, rfl, ?_, ?_, ?_⟩
        · rw [hp0, List.append_nil]; rw [hp0, List.nil_append] at hat1; exact hat1
        · show p.currentLevel + 1 = p.currentLevel + r.delta
          unfold Record.delta; rw [if_pos h10]
        · rw [lines_of_not_emits j _ r hem, List.append_nil]; rfl
      · by_cases h11 : r.opcode = 11
        · have hem : ¬ emitsLine r.opcode := by unfold emitsLine; omega
          have hp0 : r.payload = [] := by
            have := hpp (Or.inr h11)
            exact List.length_eq_zero.mp (by omega)
          have hdis : dispatch j { p with file := (p.file.read 4).1 } r.opcode r.length =
              .ok (parsePopLevel { p with file := (p.file.read 4).1 }) := by
            rw [h11]; rfl
          rw [hdis]
          refine ⟨_, rfl, ?_, ?_, ?_⟩
          · rw [hp0, List.append_nil]; rw [hp0, List.nil_append] at hat1; exact hat1
          · show p.currentLevel - 1 = p.currentLevel + r.delta
            unfold Record.delta; rw [if_neg h10, if_pos h11]; omega
          · rw [lines_of_not_emits j _ r hem, List.append_nil]; rfl
        · by_cases h33 : r.opcode = 33
          · have hem : emitsLine r.opcode := Or.inr (Or.inr (Or.inr (Or.inr h33)))
            obtain ⟨p1, h1, h2, h3, h4⟩ := parseLongId_ok j
              ({ p with file := (p.file.read 4).1 } : Parser) r.length
              (pre ++ [r.op0, r.op1, r.len0, r.len1]) r.payload post hat1 hlen (hd hem)
            have hdis : dispatch j { p with file := (p.file.read 4).1 } r.opcode r.length =
                parseLongId j { p with file := (p.file.read 4).1 } r.length := by
              rw [h33]; rfl
            rw [hdis, h1]
            refine ⟨p1, rfl, h2, ?_, ?_⟩
            · rw [h3, delta_of_emits r hem]; simp
            · rw [h4, lines_of_emits j _ r hem, text_longId j r h33, h33, kindOf_longId]
          · have hem : ¬ emitsLine r.opcode := by unfold emitsLine; omega
            rw [dispatch_default j _ _ _ hn1 hn2 hn4 h5 h10 h11 h33]
            refine ⟨_, rfl, ?_, ?_, ?_⟩
            · exact skipRecord_at _ r.length _ r.payload post hl hat1 hlen
            · show p.currentLevel = p.currentLevel + r.delta
              unfold Record.delta; rw [if_neg h10, if_neg h11]; omega
            · rw [lines_of_not_emits j _ r hem, List.append_nil]; rfl

/-! ## Face text -/

theorem takeWhile_append_stop (q : Byte → Bool) (l₁ l₂ : List Byte)
    (h : ∃ x ∈ l₁, q x = false) : (l₁ ++ l₂).takeWhile q = l₁.takeWhile q := by
  induction l₁ with
  | nil => obtain ⟨x, hx, _⟩ := h; cases hx
  | cons a l ih =>
    by_cases ha : q a = true
    · have hl : ∃ x ∈ l, q x = false := by
        obtain ⟨x, hx, hq⟩ := h
        rcases List.mem_cons.mp hx with rfl | hx
        · rw [ha] at hq; cases hq
        · exact ⟨x, hx, hq⟩
      simp [List.takeWhile_cons, ha, ih hl]
    · simp [List.takeWhile_cons, ha]

/-- A C string whose first `n` bytes hold a zero byte is read from those
bytes alone. -/
theorem string_of_zero (n : Nat) (mem : List Byte) (h : (0 : Byte) ∈ mem.take n) :
    string mem = string (mem.take n) := by
  unfold string
  conv_lhs => rw [← List.take_append_drop n mem]
  rw [takeWhile_append_stop _ _ _ ⟨0, h, by simp⟩]

theorem list_eq_getD (l : List Byte) (n : Nat) (h : l.length = n) :
    l = (List.range n).map (fun i => l.getD i 0) := by
  apply List.ext_getElem
  · simp [h]
  · intro i h1 h2
    simp [List.getD_eq_getElem?_getD, List.getElem?_eq_getElem h1]

theorem faceInfo_fill (fixed old : List Byte) (h28 : fixed.length = 28)
    (hz : (0 : Byte) ∈ fixed.take 8) :
    faceInfo (fill 28 fixed old) =
      string (fixed.take 8) ++ " (Material Index: ".toList ++
        to_string (toInt16 (256 * (fixed.getD 26 0).val + (fixed.getD 27 0).val)) ++
        " (Color Index : ".toList ++
        to_string ((256 * (fixed.getD 16 0).val + (fixed.getD 17 0).val : Nat) : Int) ++
        ")".toList := by
  have hfix := list_eq_getD fixed 28 h28
  have hr : List.range 28 = [0, 1, 2, 3, 4, 5, 6, 7, 8, 9, 10, 11, 12, 13, 14, 15, 16, 17, 18,
      19, 20, 21, 22, 23, 24, 25, 26, 27] := by decide
  rw [hr] at hfix
  simp only [List.map_cons, List.map_nil] at hfix
  generalize fixed.getD 0 0 = a0 at hfix
  generalize fixed.getD 1 0 = a1 at hfix
  generalize fixed.getD 2 0 = a2 at hfix
  generalize fixed.getD 3 0 = a3 at hfix
  generalize fixed.getD 4 0 = a4 at hfix
  generalize fixed.getD 5 0 = a5 at hfix
  generalize fixed.getD 6 0 = a6 at hfix
  generalize fixed.getD 7 0 = a7 at hfix
  generalize fixed.getD 8 0 = a8 at hfix
  generalize fixed.getD 9 0 = a9 at hfix
  generalize fixed.getD 10 0 = a10 at hfix
  generalize fixed.getD 11 0 = a11 at hfix
  generalize fixed.getD 12 0 = a12 at hfix
  generalize fixed.getD 13 0 = a13 at hfix
  generalize fixed.getD 14 0 = a14 at hfix
  generalize fixed.getD 15 0 = a15 at hfix
  generalize fixed.getD 16 0 = a16 at hfix
  generalize fixed.getD 17 0 = a17 at hfix
  generalize fixed.getD 18 0 = a18 at hfix
  generalize fixed.getD 19 0 = a19 at hfix
  generalize fixed.getD 20 0 = a20 at hfix
  generalize fixed.getD 21 0 = a21 at hfix
  generalize fixed.getD 22 0 = a22 at hfix
  generalize fixed.getD 23 0 = a23 at hfix
  generalize fixed.getD 24 0 = a24 at hfix
  generalize fixed.getD 25 0 = a25 at hfix
  generalize fixed.getD 26 0 = a26 at hfix
  generalize fixed.getD 27 0 = a27 at hfix
  subst hfix
  have h16 := a16.isLt
  have h17 := a17.isLt
  have h26 := a26.isLt
  have h27 := a27.isLt
  have hmem : ∀ (m : List Byte), (0 : Byte) ∈ List.take 8 m → string m = string (List.take 8 m) :=
    fun m hm => string_of_zero 8 m hm
  unfold faceInfo
  simp only [fill, List.length_cons, List.length_nil, List.cons_append, List.nil_append,
    store16, load16, ofBytesLE, List.getD_cons_succ, List.getD_cons_zero, List.set_cons_succ,
    List.set_cons_zero, swap_endian_two, toBytesLE, Nat.mul_zero, Nat.add_zero]
  have e1 : (a27.val + 256 * a26.val) % 256 + 256 * ((a27.val + 256 * a26.val) / 256 % 256) =
      256 * a26.val + a27.val := by omega
  have e2 : (a17.val + 256 * a16.val) % 256 + 256 * ((a17.val + 256 * a16.val) / 256 % 256) =
      256 * a16.val + a17.val := by omega
  rw [e1, e2, hmem _ (by simpa using hz)]
  rfl

/-! ## Runs over a list of records -/

theorem stream_append (xs ys : List Record) : stream (xs ++ ys) = stream xs ++ stream ys := by
  induction xs with
  | nil => rfl
  | cons r rs ih => simp [stream, ih]

theorem stream_length (rs : List Record) (h : ∀ r ∈ rs, r.payload.length + 4 = r.length) :
    (stream rs).length = declaredTotal rs := by
  induction rs with
  | nil => rfl
  | cons r rs ih =>
    have h1 := h r (List.mem_cons_self _ _)
    have h2 := ih (fun x hx => h x (List.mem_cons_of_mem _ hx))
    simp only [stream, declaredTotal, List.length_append, Record.bytes, List.length_cons,
      List.length_nil, h2]
    omega

theorem start_at (bytes : List Byte) : At (Parser.start (some bytes)).file [] bytes :=
  ⟨rfl, rfl, rfl, rfl⟩

/-- Records that fit their decoders are consumed one per loop iteration. -/
theorem steps_records (rs : List Record) :
    ∀ (junk : Nat → Junk) (p : Parser) (pre post : List Byte),
      At p.file pre (stream rs ++ post) → (∀ r ∈ rs, r.Fits) →
      NoNegativeEmit p.currentLevel rs →
      ∃ p1, steps rs.length junk p = some p1 ∧ At p1.file (pre ++ stream rs) post ∧
        p1.currentLevel = depthAfter p.currentLevel rs ∧
        p1.cout = p.cout ++ linesOf junk p.currentLevel rs := by
  induction rs with
  | nil =>
    intro junk p pre post hat _ _
    exact ⟨p, rfl, by simpa [stream] using hat, rfl, by simp [linesOf]⟩
  | cons r rs ih =>
    intro junk p pre post hat hfit hneg
    have hat0 : At p.file pre (r.bytes ++ (stream rs ++ post)) := by
      simpa [stream, List.append_assoc] using hat
    obtain ⟨p1, h1, h2, h3, h4⟩ := iteration_record (junk 0) p r pre (stream rs ++ post) hat0
      (hfit r (List.mem_cons_self _ _)) hneg.1
    obtain ⟨p2, g1, g2, g3, g4⟩ := ih (fun i => junk (i + 1)) p1 (pre ++ r.bytes) post h2
      (fun x hx => hfit x (List.mem_cons_of_mem _ hx)) (by rw [h3]; exact hneg.2)
    refine ⟨p2, ?_, ?_, ?_, ?_⟩
    · simp only [List.length_cons, steps, hat.not_fail, h1]
      simpa using g1
    · simpa [stream, List.append_assoc] using g2
    · rw [g3, h3]; rfl
    · rw [g4, h4, h3]; simp [linesOf, List.append_assoc]

/-- The loop after `n` completed iterations goes on from the state they leave. -/
theorem loop_steps (n : Nat) :
    ∀ (k : Nat) (junk : Nat → Junk) (p p1 : Parser), steps n junk p = some p1 →
      loop (n + k) junk p = loop k (fun i => junk (i + n)) p1 := by
  induction n with
  | zero =>
    intro k junk p p1 h
    simp only [steps, Option.some.injEq] at h
    subst h
    simp
  | succ n ih =>
    intro k junk p p1 h
    have e : n + 1 + k = (n + k) + 1 := by omega
    rw [e]
    simp only [steps] at h
    simp only [loop]
    by_cases hf : p.file.fail = true
    · simp [hf] at h
    · simp only [hf, if_false, Bool.false_eq_true] at h ⊢
      cases hit : iteration (junk 0) p with
      | next q =>
        rw [hit] at h
        simp only at h ⊢
        rw [ih k _ q p1 h]
        have e2 : (fun i => junk (i + n + 1)) = (fun i => junk (i + (n + 1))) := by
          funext i
          rw [Nat.add_assoc]
        rw [e2]
      | leave q => rw [hit] at h; simp at h
      | throw e out => rw [hit] at h; simp at h

/-- With nothing left to read the next header read extracts no byte and the
loop ends. -/
theorem iteration_at_end (j : Junk) (p : Parser) (pre : List Byte) (hat : At p.file pre []) :
    iteration j p = .leave { p with file := (p.file.read 4).1 } := by
  obtain ⟨hc, hp, he, hf⟩ := hat
  unfold iteration
  have hg : (p.file.read 4).1.gcount = 0 := by
    simp [IfStream.read, IfStream.good, he, hf, hc, hp]
  simp [hg]

/-- The function `parseFile` returns `true` whenever it returns from an opened
file. -/
theorem loop_returns_true (fuel : Nat) :
    ∀ (junk : Nat → Junk) (p q : Parser) (v : Bool),
      loop fuel junk p = some (.returned v q) → v = true := by
  induction fuel with
  | zero => intro junk p q v h; simp [loop] at h
  | succ n ih =>
    intro junk p q v h
    simp only [loop] at h
    by_cases hf : p.file.fail = true
    · simp [hf] at h; exact h.1
    · simp only [hf, if_false, Bool.false_eq_true] at h
      cases hit : iteration (junk 0) p with
      | next p1 => rw [hit] at h; exact ih _ p1 q v h
      | leave p1 => rw [hit] at h; simp at h; exact h.1
      | throw e out => rw [hit] at h; simp at h

/-! ## Whole files -/

/-- A file made of records that fit their decoders, none of them writing a
line at a negative depth, is parsed to its end: `parseFile` returns `true` with
the cursor at the end of the file, the depth the push and pop records add up
to and one line per line-writing record. -/
theorem parseFile_records (rs : List Record) (junk : Nat → Junk) (k : Nat)
    (hfit : ∀ r ∈ rs, r.Fits) (hneg : NoNegativeEmit 0 rs) :
    ∃ p, parseFile (rs.length + (k + 1)) junk (some (stream rs)) = some (.returned true p) ∧
      p.file.pos = declaredTotal rs ∧ p.currentLevel = depthAfter 0 rs ∧
      p.cout = linesOf junk 0 rs := by
  have hat : At (Parser.start (some (stream rs))).file [] (stream rs ++ []) := by
    simpa using start_at (stream rs)
  obtain ⟨p1, h1, h2, h3, h4⟩ := steps_records rs junk (Parser.start (some (stream rs))) [] []
    hat hfit hneg
  have hpf : parseFile (rs.length + (k + 1)) junk (some (stream rs)) =
      loop (rs.length + (k + 1)) junk (Parser.start (some (stream rs))) := rfl
  rw [hpf, loop_steps rs.length (k + 1) junk _ p1 h1]
  simp only [loop, h2.not_fail, iteration_at_end _ p1 _ h2]
  refine ⟨_, rfl, ?_, h3, ?_⟩
  · have hp := h2.pos_eq
    have hl := stream_length rs (fun r hr => (hfit r hr).1)
    obtain ⟨hc, _, he, hf⟩ := h2
    simp [IfStream.read, IfStream.good, he, hf, hc, hp, hl]
  · simpa using h4

/-- A line-writing record met at a negative depth ends the program:
`printWithIndent` throws `std::length_error`. -/
theorem iteration_negative_depth (j : Junk) (p : Parser) (pre rest : List Byte)
    (b0 b1 b2 b3 : Byte) (hat : At p.file pre ([b0, b1, b2, b3] ++ rest))
    (hem : emitsLine (toInt16 (256 * b0.val + b1.val)))
    (hlen : 4 ≤ 256 * b2.val + b3.val) (hd : p.currentLevel < 0) :
    iteration j p = .throw .length_error p.cout := by
  obtain ⟨_, heq⟩ := iteration_header j p pre rest b0 b1 b2 b3 hat
  rw [heq]
  generalize toInt16 (256 * b0.val + b1.val) = op at hem
  generalize hL : 256 * b2.val + b3.val = len at hlen
  have hn : ¬ ((len : Int) - 4 < 0) := by omega
  rcases hem with h | h | h | h | h <;> subst h <;>
    simp [dispatch, parseHeader, parseGroup, parseObject, parseFace, parseLongId, hn,
      printWithIndent_neg, hd]

theorem loop_throw (n k : Nat) (junk : Nat → Junk) (p p1 : Parser) (e : Thrown)
    (out : List (List Char)) (hs : steps n junk p = some p1) (hf : p1.file.fail = false)
    (hit : iteration (junk n) p1 = .throw e out) :
    loop (n + (k + 1)) junk p = some (.terminated e out) := by
  rw [loop_steps n (k + 1) junk p p1 hs]
  simp [loop, hf, hit]

theorem seekg_back (f : IfStream) (pre rest bs : List Byte)
    (h : At f (pre ++ bs) rest) : At (f.seekg (-(bs.length : Int))) pre (bs ++ rest) := by
  obtain ⟨hc, hp, he, hf⟩ := h
  have h0 : ¬ ((f.pos : Int) + -(bs.length : Int) < 0) := by
    rw [hp]; simp
  simp only [IfStream.seekg, hf, h0, if_false, Bool.false_eq_true]
  refine ⟨by simp [hc], ?_, rfl, rfl⟩
  simp [hp]

/-! ## Failed streams -/

theorem skipRemaining_failbit (p : Parser) (length size : Nat) (h : p.file.failbit = true) :
    (skipRemaining p length size).file.failbit = true ∧
      (skipRemaining p length size).cout = p.cout ∧
      (skipRemaining p length size).currentLevel = p.currentLevel := by
  unfold skipRemaining
  by_cases hr : toInt32 (subSizeT length size) > 0
  · simp only [hr, if_true]
    exact ⟨seekg_failbit _ _ h, trivial, trivial⟩
  · simp only [hr, if_false]
    exact ⟨h, trivial, trivial⟩

/-- The loop stops at its condition once the stream has failed. -/
theorem loop_failed (k : Nat) (junk : Nat → Junk) (p : Parser) (h : p.file.failbit = true) :
    loop (k + 1) junk p = some (.returned true p) := by
  simp [loop, IfStream.fail, h]

theorem parseId_failbit (type : String) (j : Junk) (p : Parser) (length : Nat)
    (hf : (p.file.read 8).1.failbit = true) (hd : 0 ≤ p.currentLevel) :
    ∃ p1, parseId type j p length = .ok p1 ∧ p1.file.failbit = true ∧
      p1.currentLevel = p.currentLevel ∧ p1.cout.length = p.cout.length + 1 := by
  unfold parseId
  simp only
  rw [printWithIndent_ok _ _ _ (by simpa using hd)]
  simp only
  obtain ⟨h1, h2, h3⟩ := skipRemaining_failbit
    { file := (p.file.read 8).1, currentLevel := p.currentLevel,
      cout := p.cout ++ [List.replicate (p.currentLevel * 2).toNat ' ' ++ type.toList ++
        ": ".toList ++ string (fill 8 (p.file.read 8).2 j.record)] } length 12 hf
  exact ⟨_, rfl, h1, h3, by rw [h2]; simp⟩

theorem parseFace_failbit (j : Junk) (p : Parser) (length : Nat)
    (hf : (p.file.read 28).1.failbit = true) (hd : 0 ≤ p.currentLevel) :
    ∃ p1, parseFace j p length = .ok p1 ∧ p1.file.failbit = true ∧
      p1.currentLevel = p.currentLevel ∧ p1.cout.length = p.cout.length + 1 := by
  unfold parseFace
  simp only
  rw [printWithIndent_ok _ _ _ (by simpa using hd)]
  simp only
  obtain ⟨h1, h2, h3⟩ := skipRemaining_failbit
    { file := (p.file.read 28).1, currentLevel := p.currentLevel,
      cout := p.cout ++ [List.replicate (p.currentLevel * 2).toNat ' ' ++ "Face".toList ++
        ": ".toList ++ faceInfo (fill 28 (p.file.read 28).2 j.record)] } length 32 hf
  exact ⟨_, rfl, h1, h3, by rw [h2]; simp⟩

theorem parseLongId_failbit (j : Junk) (p : Parser) (length : Nat) (hl : 4 ≤ length)
    (hf : (p.file.read (length - 4)).1.failbit = true) (hd : 0 ≤ p.currentLevel) :
    ∃ p1, parseLongId j p length = .ok p1 ∧ p1.file.failbit = true ∧
      p1.currentLevel = p.currentLevel ∧ p1.cout.length = p.cout.length + 1 := by
  have hn : ¬ ((length : Int) - 4 < 0) := by omega
  have hn2 : ((length : Int) - 4).toNat = length - 4 := by omega
  unfold parseLongId
  simp only [hn, if_false, hn2]
  rw [printWithIndent_ok _ _ _ (by simpa using hd)]
  exact ⟨_, rfl, hf, rfl, by simp⟩

/-! ## Evaluating the loop -/

theorem steps_succ_of_next (n : Nat) (junk : Nat → Junk) (p p1 : Parser)
    (hf : p.file.fail = false) (hit : iteration (junk 0) p = .next p1) :
    steps (n + 1) junk p = steps n (fun i => junk (i + 1)) p1 := by
  simp [steps, hf, hit]

theorem cursorAfter_of_steps (n : Nat) (junk : Nat → Junk) (bytes : List Byte) (p : Parser)
    (h : steps n junk (Parser.start (some bytes)) = some p) :
    cursorAfter n junk bytes = some p.file.pos := by
  simp [cursorAfter, h]

theorem parseFile_some (fuel : Nat) (junk : Nat → Junk) (bytes : List Byte) :
    parseFile fuel junk (some bytes) = loop fuel junk (Parser.start (some bytes)) := rfl

theorem loop_succ_of_next (k : Nat) (junk : Nat → Junk) (p p1 : Parser)
    (hf : p.file.fail = false) (hit : iteration (junk 0) p = .next p1) :
    loop (k + 1) junk p = loop k (fun i => junk (i + 1)) p1 := by
  simp [loop, hf, hit]

theorem loop_succ_of_leave (k : Nat) (junk : Nat → Junk) (p p1 : Parser)
    (hf : p.file.fail = false) (hit : iteration (junk 0) p = .leave p1) :
    loop (k + 1) junk p = some (.returned true p1) := by
  simp [loop, hf, hit]

theorem loop_succ_of_throw (k : Nat) (junk : Nat → Junk) (p : Parser) (e : Thrown)
    (out : List (List Char)) (hf : p.file.fail = false)
    (hit : iteration (junk 0) p = .throw e out) :
    loop (k + 1) junk p = some (.terminated e out) := by
  simp [loop, hf, hit]

theorem skipRemaining_frame (p : Parser) (length size : Nat) :
    (skipRemaining p length size).cout = p.cout ∧
      (skipRemaining p length size).currentLevel = p.currentLevel := by
  unfold skipRemaining
  by_cases hr : toInt32 (subSizeT length size) > 0
  · simp only [hr, if_true]
    exact ⟨trivial, trivial⟩
  · simp only [hr, if_false]
    exact ⟨trivial, trivial⟩

theorem string_fill_of_zero (size : Nat) (got old : List Byte) (h : (0 : Byte) ∈ got) :
    string (fill size got old) = string got := by
  unfold string fill
  rw [List.append_assoc, takeWhile_append_stop _ _ _ ⟨0, h, by simp⟩]

theorem linesOf_append (xs : List Record) :
    ∀ (junk : Nat → Junk) (d : Int) (ys : List Record),
      linesOf junk d (xs ++ ys) =
        linesOf junk d xs ++ linesOf (fun i => junk (i + xs.length)) (depthAfter d xs) ys := by
  induction xs with
  | nil => intro junk d ys; simp [linesOf, depthAfter]
  | cons x xs ih =>
    intro junk d ys
    have e : (fun i => junk (i + xs.length + 1)) = (fun i => junk (i + (xs.length + 1))) := by
      funext i
      rw [Nat.add_assoc]
    simp only [List.cons_append, linesOf, depthAfter, List.append_eq, ih, List.append_assoc,
      List.length_cons, e]

theorem depthAfter_append (xs : List Record) :
    ∀ (d : Int) (ys : List Record),
      depthAfter d (xs ++ ys) = depthAfter (depthAfter d xs) ys := by
  induction xs with
  | nil => intro d ys; rfl
  | cons x xs ih => intro d ys; simp only [List.cons_append, depthAfter, List.append_eq, ih]

theorem noNegativeEmit_append (xs : List Record) :
    ∀ (d : Int) (ys : List Record),
      NoNegativeEmit d (xs ++ ys) ↔ NoNegativeEmit d xs ∧ NoNegativeEmit (depthAfter d xs) ys := by
  induction xs with
  | nil => intro d ys; simp [NoNegativeEmit, depthAfter]
  | cons x xs ih =>
    intro d ys
    simp only [List.cons_append, NoNegativeEmit, depthAfter, List.append_eq, ih, and_assoc]

theorem parseFace_line (j : Junk) (p : Parser) (length : Nat) (pre fixed rest : List Byte)
    (hat : At p.file pre (fixed ++ rest)) (h28 : fixed.length = 28)
    (hd : 0 ≤ p.currentLevel) :
    ∃ p1, parseFace j p length = .ok p1 ∧ p1.currentLevel = p.currentLevel ∧
      p1.cout = p.cout ++ [List.replicate (p.currentLevel * 2).toNat ' ' ++ "Face".toList ++
        ": ".toList ++ faceInfo (fill 28 fixed j.record)] := by
  obtain ⟨h2, _, _⟩ := read_at fixed hat
  rw [h28] at h2
  unfold parseFace
  simp only [h2]
  rw [printWithIndent_ok _ _ _ (by simpa using hd)]
  simp only
  obtain ⟨ha, hb⟩ := skipRemaining_frame
    { file := (p.file.read 28).1, currentLevel := p.currentLevel,
      cout := p.cout ++ [List.replicate (p.currentLevel * 2).toNat ' ' ++ "Face".toList ++
        ": ".toList ++ faceInfo (fill 28 fixed j.record)] } length 32
  exact ⟨_, rfl, hb, ha⟩

/-- The loop never leaves a file whose only record has an unknown opcode and
declared length 0: the `default` branch seeks back to the record start. -/
theorem loop_zero_length_unknown (fuel : Nat) :
    ∀ (junk : Nat → Junk) (p : Parser), At p.file [] [3, 231, 0, 0] → loop fuel junk p = none := by
  induction fuel with
  | zero => intro junk p _; rfl
  | succ n ih =>
    intro junk p hat
    have hat0 : At p.file [] ([3, 231, 0, 0] ++ []) := by simpa using hat
    obtain ⟨hat1, heq⟩ := iteration_header (junk 0) p [] [] 3 231 0 0 hat0
    have hop : toInt16 (256 * (3 : Byte).val + (231 : Byte).val) = 999 := by decide
    have hlen : 256 * (0 : Byte).val + (0 : Byte).val = 0 := by decide
    rw [hop, hlen, dispatch_default _ _ 999 0 (by decide) (by decide) (by decide) (by decide)
      (by decide) (by decide) (by decide)] at heq
    have hoff : toInt64 (subSizeT 0 4) = -((([3, 231, 0, 0] : List Byte).length : Nat) : Int) := by
      decide
    have hback := seekg_back (p.file.read 4).1 [] [] [3, 231, 0, 0] hat1
    rw [← hoff] at hback
    rw [loop_succ_of_next n junk p _ hat.not_fail heq]
    exact ih _ _ (by simpa [skipRecord] using hback)

/-! ## Short reads -/

theorem printWithIndent_cases (p : Parser) (text : List Char) (type : String) :
    printWithIndent p text type = .error .length_error ∨
      ∃ line, printWithIndent p text type = .ok { p with cout := p.cout ++ [line] } := by
  by_cases h : p.currentLevel * 2 < 0
  · left; simp [printWithIndent, h]
  · right
    exact ⟨List.replicate (p.currentLevel * 2).toNat ' ' ++ type.toList ++ ": ".toList ++ text,
      by simp [printWithIndent, h]⟩

theorem parseId_failed (type : String) (j : Junk) (p : Parser) (length : Nat)
    (hf : p.file.failbit = true) :
    (∃ e, parseId type j p length = .error e) ∨
      ∃ p1, parseId type j p length = .ok p1 ∧ p1.file.failbit = true := by
  unfold parseId
  simp only
  rcases printWithIndent_cases { p with file := (p.file.read 8).1 }
    (string (fill 8 (p.file.read 8).2 j.record)) type with h | ⟨line, h⟩
  · left; rw [h]; exact ⟨_, rfl⟩
  · right
    rw [h]
    exact ⟨_, rfl, (skipRemaining_failbit _ length 12 (read_failbit p.file 8 hf).1).1⟩

theorem parseFace_failed (j : Junk) (p : Parser) (length : Nat)
    (hf : p.file.failbit = true) :
    (∃ e, parseFace j p length = .error e) ∨
      ∃ p1, parseFace j p length = .ok p1 ∧ p1.file.failbit = true := by
  unfold parseFace
  simp only
  rcases printWithIndent_cases { p with file := (p.file.read 28).1 }
    (faceInfo (fill 28 (p.file.read 28).2 j.record)) "Face" with h | ⟨line, h⟩
  · left; rw [h]; exact ⟨_, rfl⟩
  · right
    rw [h]
    exact ⟨_, rfl, (skipRemaining_failbit _ length 32 (read_failbit p.file 28 hf).1).1⟩

theorem parseLongId_failed (j : Junk) (p : Parser) (length : Nat)
    (hf : p.file.failbit = true) :
    (∃ e, parseLongId j p length = .error e) ∨
      ∃ p1, parseLongId j p length = .ok p1 ∧ p1.file.failbit = true := by
  unfold parseLongId
  simp only
  by_cases hn : (length : Int) - 4 < 0
  · left; simp only [hn, if_true]; exact ⟨_, rfl⟩
  · simp only [hn, if_false]
    rcases printWithIndent_cases
      { p with file := (p.file.read ((length : Int) - 4).toNat).1 }
      (string (fill ((length : Int) - 4).toNat (p.file.read ((length : Int) - 4).toNat).2 j.heap))
      "Full ID" with h | ⟨line, h⟩
    · left; rw [h]; exact ⟨_, rfl⟩
    · right
      rw [h]
      exact ⟨_, rfl, (read_failbit p.file _ hf).1⟩

/-- Once the stream has failed no decoder brings it back. -/
theorem dispatch_failed (j : Junk) (p : Parser) (opcode : Int) (length : Nat)
    (hf : p.file.failbit = true) :
    (∃ e, dispatch j p opcode length = .error e) ∨
      ∃ p1, dispatch j p opcode length = .ok p1 ∧ p1.file.failbit = true := by
  unfold dispatch
  split_ifs
  · exact parseId_failed "Header" j p length hf
  · exact parseId_failed "Group" j p length hf
  · exact parseId_failed "Object" j p length hf
  · exact parseFace_failed j p length hf
  · exact Or.inr ⟨_, rfl, hf⟩
  · exact Or.inr ⟨_, rfl, hf⟩
  · exact parseLongId_failed j p length hf
  · exact Or.inr ⟨_, rfl, seekg_failbit _ _ hf⟩

/-- A header read that comes up short ends the loop at this iteration: the
body leaves, throws, or hands a failed stream to the loop condition. -/
theorem loop_short_header (k : Nat) (junk : Nat → Junk) (p : Parser)
    (hf : (p.file.read 4).1.failbit = true) : ∃ o, loop (k + 2) junk p = some o := by
  by_cases hfail : p.file.fail = true
  · exact ⟨.returned true p, by simp [loop, hfail]⟩
  · have hfail2 : p.file.fail = false := by simpa using hfail
    by_cases hg : (p.file.read 4).1.gcount = 0
    · have hit : iteration (junk 0) p = .leave { p with file := (p.file.read 4).1 } := by
        simp [iteration, hg]
      exact ⟨_, loop_succ_of_leave (k + 1) junk p _ hfail2 hit⟩
    · rcases dispatch_failed (junk 0) { p with file := (p.file.read 4).1 }
        (headerOpcode (fill 4 (p.file.read 4).2 (junk 0).header))
        (headerLength (fill 4 (p.file.read 4).2 (junk 0).header)) hf with ⟨e, h⟩ | ⟨p1, h, hp1⟩
      · have hit : iteration (junk 0) p = .throw e p.cout := by
          simp [iteration, hg, h]
        exact ⟨_, loop_succ_of_throw (k + 1) junk p e _ hfail2 hit⟩
      · have hit : iteration (junk 0) p = .next p1 := by
          simp [iteration, hg, h]
        rw [loop_succ_of_next (k + 1) junk p p1 hfail2 hit]
        exact ⟨_, loop_failed k _ p1 hp1⟩

theorem payloadRead_pos_cases (opcode : Int) (length n : Nat) (h : n < payloadRead opcode length) :
    ((opcode = 1 ∨ opcode = 2 ∨ opcode = 4) ∧ n < 8) ∨ (opcode = 5 ∧ n < 28) ∨
      (opcode = 33 ∧ n < length - 4) := by
  unfold payloadRead at h
  split_ifs at h with h1 h2 h3
  · exact Or.inl ⟨h1, h⟩
  · exact Or.inr (Or.inl ⟨h2, h⟩)
  · exact Or.inr (Or.inr ⟨h3, h⟩)
  · omega

/-- A record whose payload ends before its decoder has read what it asks for
still gets its line, and leaves the stream failed. -/
theorem iteration_truncated (j : Junk) (p : Parser) (pre payload : List Byte)
    (b0 b1 b2 b3 : Byte) (hat : At p.file pre ([b0, b1, b2, b3] ++ payload))
    (hshort : payload.length <
      payloadRead (toInt16 (256 * b0.val + b1.val)) (256 * b2.val + b3.val))
    (hd : 0 ≤ p.currentLevel) :
    ∃ p1, iteration j p = .next p1 ∧ p1.file.failbit = true ∧
      p1.currentLevel = p.currentLevel ∧ p1.cout.length = p.cout.length + 1 := by
  obtain ⟨hat1, heq⟩ := iteration_header j p pre payload b0 b1 b2 b3 hat
  rw [heq]
  generalize toInt16 (256 * b0.val + b1.val) = op at hshort
  generalize 256 * b2.val + b3.val = len at hshort
  rcases payloadRead_pos_cases op len _ hshort with ⟨hid, hn⟩ | ⟨h5, hn⟩ | ⟨h33, hn⟩
  · obtain ⟨_, hfb, _⟩ := read_short 8 hat1 hn
    obtain ⟨p1, h1, h2, h3, h4⟩ := parseId_failbit (kindOf op) j
      { p with file := (p.file.read 4).1 } len hfb hd
    rw [dispatch_id j _ _ _ hid, h1]
    exact ⟨p1, rfl, h2, h3, h4⟩
  · obtain ⟨_, hfb, _⟩ := read_short 28 hat1 hn
    obtain ⟨p1, h1, h2, h3, h4⟩ := parseFace_failbit j
      { p with file := (p.file.read 4).1 } len hfb hd
    rw [h5, dispatch_face, h1]
    exact ⟨p1, rfl, h2, h3, h4⟩
  · obtain ⟨_, hfb, _⟩ := read_short (len - 4) hat1 hn
    obtain ⟨p1, h1, h2, h3, h4⟩ := parseLongId_failbit j
      { p with file := (p.file.read 4).1 } len (by omega) hfb hd
    rw [h33, dispatch_longId, h1]
    exact ⟨p1, rfl, h2, h3, h4⟩

theorem depthAfter_counts (rs : List Record) :
    ∀ d : Int, depthAfter d rs = d + (pushCount rs : Int) - (popCount rs : Int) := by
  induction rs with
  | nil => intro d; simp [depthAfter, pushCount, popCount]
  | cons r rs ih =>
    intro d
    simp only [depthAfter, pushCount, popCount, ih, Record.delta]
    by_cases h10 : r.opcode = 10
    · have h11 : r.opcode ≠ 11 := by omega
      simp [h10]
      omega
    · by_cases h11 : r.opcode = 11
      · simp [h11]
        omega
      · simp [h10, h11]

theorem headerOpcode_fill_two (b0 b1 : Byte) (tl old : List Byte) :
    headerOpcode (fill 4 (b0 :: b1 :: tl) old) = toInt16 (256 * b0.val + b1.val) := by
  simp [headerOpcode, fill, load16, swap_endian_two, ofBytesLE]
  congr 1; omega

theorem steps_snoc (n : Nat) :
    ∀ (junk : Nat → Junk) (p p0 p1 : Parser), steps n junk p = some p0 →
      p0.file.fail = false → iteration (junk n) p0 = .next p1 →
      steps (n + 1) junk p = some p1 := by
  induction n with
  | zero =>
    intro junk p p0 p1 h hf hit
    simp only [steps, Option.some.injEq] at h
    subst h
    simp [steps, hf, hit]
  | succ n ih =>
    intro junk p p0 p1 h hf hit
    simp only [steps] at h
    by_cases hfp : p.file.fail = true
    · simp [hfp] at h
    · simp only [hfp, if_false, Bool.false_eq_true] at h
      cases hq : iteration (junk 0) p with
      | next q =>
        rw [hq] at h
        have := ih (fun i => junk (i + 1)) q p0 p1 h hf hit
        rw [steps_succ_of_next (n + 1) junk p q (by simpa using hfp) hq]
        exact this
      | leave q => rw [hq] at h; simp at h
      | throw e out => rw [hq] at h; simp at h

/-! ## Byte order -/

theorem toBytesLE_length (n : Nat) : ∀ x : Nat, (toBytesLE n x).length = n := by
  induction n with
  | zero => intro x; rfl
  | succ n ih => intro x; simp [toBytesLE, ih]

theorem ofBytesLE_toBytesLE (n : Nat) : ∀ x : Nat, ofBytesLE (toBytesLE n x) = x % 256 ^ n := by
  induction n with
  | zero => intro x; simp [toBytesLE, ofBytesLE, Nat.mod_one]
  | succ n ih =>
    intro x
    simp only [toBytesLE, ofBytesLE, ih]
    rw [Nat.pow_succ, Nat.mul_comm (256 ^ n) 256, Nat.mod_mul]

theorem toBytesLE_ofBytesLE (bs : List Byte) : toBytesLE bs.length (ofBytesLE bs) = bs := by
  induction bs with
  | nil => rfl
  | cons b bs ih =>
    have hb := b.isLt
    simp only [List.length_cons, toBytesLE, ofBytesLE]
    have h1 : (b.val + 256 * ofBytesLE bs) % 256 = b.val := by omega
    have h2 : (b.val + 256 * ofBytesLE bs) / 256 = ofBytesLE bs := by omega
    rw [h2, ih]
    congr 1
    exact Fin.ext h1

theorem some_getD_getElem? (bs : List Byte) (j : Nat) (h : j < bs.length) :
    some (bs.getD j 0) = bs[j]? := by
  simp [List.getD_eq_getElem?_getD, List.getElem?_eq_getElem h]

/-- After `k` iterations of the swap loop the outer `k` bytes on either side
are mirrored and the bytes between them are untouched. -/
theorem swapLoop_getElem? (size : Nat) (bs : List Byte) (hlen : bs.length = size) :
    ∀ k, 2 * k ≤ size → (swapLoop size k bs).length = size ∧
      ∀ i, i < size → (swapLoop size k bs)[i]? =
        if i < k ∨ size - 1 - i < k then bs[size - 1 - i]? else bs[i]? := by
  intro k
  induction k with
  | zero =>
    intro _
    refine ⟨hlen, fun i _ => ?_⟩
    simp [swapLoop]
  | succ k ih =>
    intro hk
    obtain ⟨hl, hi⟩ := ih (by omega)
    have hlo := hi k (by omega)
    have hhi := hi (size - 1 - k) (by omega)
    rw [if_neg (by omega)] at hlo hhi
    have e1 : some ((swapLoop size k bs).getD k 0) = bs[k]? := by
      rw [some_getD_getElem? _ _ (by omega), hlo]
    have e2 : some ((swapLoop size k bs).getD (size - 1 - k) 0) = bs[size - 1 - k]? := by
      rw [some_getD_getElem? _ _ (by omega), hhi]
    refine ⟨by simp [swapLoop, swapBytes, hl], fun i hisz => ?_⟩
    simp only [swapLoop, swapBytes, List.getElem?_set, List.length_set, hl]
    by_cases h1 : size - 1 - k = i
    · rw [if_pos h1, if_pos (by omega), e1, if_pos (by omega)]
      congr 1
      omega
    · rw [if_neg h1]
      by_cases h2 : k = i
      · rw [if_pos h2, if_pos (by omega), e2, if_pos (by omega), h2]
      · rw [if_neg h2, hi i hisz]
        by_cases h3 : i < k ∨ size - 1 - i < k
        · rw [if_pos h3, if_pos (by omega)]
        · rw [if_neg h3, if_neg (by omega)]

/-- The swap loop of `swap_endian` reverses the bytes of the object. -/
theorem swapLoop_reverse (bs : List Byte) :
    swapLoop bs.length (bs.length / 2) bs = bs.reverse := by
  obtain ⟨hl, hi⟩ := swapLoop_getElem? bs.length bs rfl (bs.length / 2) (by omega)
  apply List.ext_getElem?
  intro i
  by_cases h : i < bs.length
  · rw [hi i h, List.getElem?_reverse h]
    by_cases h3 : i < bs.length / 2 ∨ bs.length - 1 - i < bs.length / 2
    · rw [if_pos h3]
    · rw [if_neg h3]
      congr 1
      omega
  · rw [List.getElem?_eq_none (by omega), List.getElem?_eq_none (by simp; omega)]

theorem swap_endian_reverse (size x : Nat) :
    swap_endian size x = ofBytesLE (toBytesLE size x).reverse := by
  unfold swap_endian
  have h := swapLoop_reverse (toBytesLE size x)
  rw [toBytesLE_length] at h
  rw [h]

theorem swap_endian_swap_endian (size x : Nat) (hx : x < 256 ^ size) :
    swap_endian size (swap_endian size x) = x := by
  rw [swap_endian_reverse size x, swap_endian_reverse]
  have hl : (toBytesLE size x).reverse.length = size := by
    rw [List.length_reverse, toBytesLE_length]
  have h := toBytesLE_ofBytesLE (toBytesLE size x).reverse
  rw [hl] at h
  rw [h, List.reverse_reverse, ofBytesLE_toBytesLE, Nat.mod_eq_of_lt hx]

theorem swap_endian_16 (x : Nat) : swap_endian 2 x = x % 256 * 256 + x / 256 % 256 := by
  simp [swap_endian, ofBytesLE, toBytesLE, swapLoop, swapBytes]
  omega

/-! ## The cursor never moves back over a record -/

theorem read_pos_le (f : IfStream) (n : Nat) : f.pos ≤ (f.read n).1.pos := by
  unfold IfStream.read
  split
  · exact Nat.le_add_right _ _
  · exact Nat.le_refl _

theorem printWithIndent_file (p p1 : Parser) (text : List Char) (type : String)
    (h : printWithIndent p text type = .ok p1) :
    p1.file = p.file ∧ p1.currentLevel = p.currentLevel := by
  unfold printWithIndent at h
  split at h
  · cases h
  · simp only [Except.ok.injEq] at h
    subst h
    exact ⟨rfl, rfl⟩

theorem seekg_pos_le (f : IfStream) (off : Int) (h : 0 ≤ off) : f.pos ≤ (f.seekg off).pos := by
  unfold IfStream.seekg
  split
  · exact Nat.le_refl _
  · split
    · exact Nat.le_refl _
    · show f.pos ≤ ((f.pos : Int) + off).toNat
      omega

theorem skipRemaining_pos_le (p : Parser) (length size : Nat) :
    p.file.pos ≤ (skipRemaining p length size).file.pos := by
  unfold skipRemaining
  by_cases hr : toInt32 (subSizeT length size) > 0
  · simp only [hr, if_true]
    exact seekg_pos_le _ _ (by omega)
  · simp only [hr, if_false]
    exact Nat.le_refl _

theorem parseId_pos_le (type : String) (j : Junk) (p p1 : Parser) (length : Nat)
    (h : parseId type j p length = .ok p1) : p.file.pos ≤ p1.file.pos := by
  unfold parseId at h
  simp only at h
  split at h
  · cases h
  · rename_i q hq
    simp only [Except.ok.injEq] at h
    subst h
    have hf := (printWithIndent_file _ _ _ _ hq).1
    have h1 := skipRemaining_pos_le q length 12
    have h2 := read_pos_le p.file 8
    rw [hf] at h1
    exact Nat.le_trans h2 h1

theorem parseFace_pos_le (j : Junk) (p p1 : Parser) (length : Nat)
    (h : parseFace j p length = .ok p1) : p.file.pos ≤ p1.file.pos := by
  unfold parseFace at h
  simp only at h
  split at h
  · cases h
  · rename_i q hq
    simp only [Except.ok.injEq] at h
    subst h
    have hf := (printWithIndent_file _ _ _ _ hq).1
    have h1 := skipRemaining_pos_le q length 32
    have h2 := read_pos_le p.file 28
    rw [hf] at h1
    exact Nat.le_trans h2 h1

theorem parseLongId_pos_le (j : Junk) (p p1 : Parser) (length : Nat)
    (h : parseLongId j p length = .ok p1) : p.file.pos ≤ p1.file.pos := by
  unfold parseLongId at h
  simp only at h
  split at h
  · cases h
  · have hf := (printWithIndent_file _ _ _ _ h).1
    rw [hf]
    exact read_pos_le p.file _

theorem ofBytesLE_two_lt (a b : Byte) : ofBytesLE [a, b] < 65536 := by
  have ha := a.isLt
  have hb := b.isLt
  simp only [ofBytesLE]
  omega

theorem headerLength_lt (header : List Byte) : headerLength header < 65536 := by
  unfold headerLength
  rw [swap_endian_reverse]
  have hl := toBytesLE_length 2 (load16 header 2)
  have hr : (toBytesLE 2 (load16 header 2)).reverse.length = 2 := by
    rw [List.length_reverse, hl]
  match hm : (toBytesLE 2 (load16 header 2)).reverse, hr with
  | [a, b], _ => exact ofBytesLE_two_lt a b

theorem read_not_failed (f : IfStream) (n : Nat) (h : (f.read n).1.failbit = false) :
    (f.read n).1.pos = f.pos + n := by
  unfold IfStream.read at h ⊢
  by_cases hg : f.good = true
  · simp only [hg, if_true] at h ⊢
    have hle := List.length_take_le n (List.drop f.pos f.content)
    have : ¬ (List.take n (List.drop f.pos f.content)).length < n := by simpa using h
    show f.pos + (List.take n (List.drop f.pos f.content)).length = f.pos + n
    omega
  · simp [hg] at h

/-- The header read followed by the `default` branch leaves the cursor at the
record start plus the declared length, never before the record start. -/
theorem skipRecord_pos_le (f : IfStream) (cl : Int) (out : List (List Char)) (length : Nat)
    (hl : length < 65536) :
    f.pos ≤ (skipRecord ⟨(f.read 4).1, cl, out⟩ length).file.pos := by
  have hoff : toInt64 (subSizeT length 4) = (length : Int) - 4 := by
    rw [toInt64_subSizeT length 4 hl (by decide)]
    rfl
  have hr := read_pos_le f 4
  simp only [skipRecord, hoff]
  unfold IfStream.seekg
  by_cases hfb : (f.read 4).1.failbit = true
  · rw [if_pos hfb]
    exact hr
  · rw [if_neg hfb]
    have hpos := read_not_failed f 4 (by simpa using hfb)
    split
    · exact hr
    · show f.pos ≤ (((f.read 4).1.pos : Int) + ((length : Int) - 4)).toNat
      rw [hpos]
      omega

theorem dispatch_pos_le (j : Junk) (f : IfStream) (cl : Int) (out : List (List Char))
    (opcode : Int) (length : Nat) (hl : length < 65536) (p1 : Parser)
    (h : dispatch j ⟨(f.read 4).1, cl, out⟩ opcode length = .ok p1) :
    f.pos ≤ p1.file.pos := by
  have hr := read_pos_le f 4
  unfold dispatch at h
  split_ifs at h
  · exact Nat.le_trans hr (parseId_pos_le "Header" j _ p1 length h)
  · exact Nat.le_trans hr (parseId_pos_le "Group" j _ p1 length h)
  · exact Nat.le_trans hr (parseId_pos_le "Object" j _ p1 length h)
  · exact Nat.le_trans hr (parseFace_pos_le j _ p1 length h)
  · simp only [Except.ok.injEq] at h; subst h; exact hr
  · simp only [Except.ok.injEq] at h; subst h; exact hr
  · exact Nat.le_trans hr (parseLongId_pos_le j _ p1 length h)
  · simp only [Except.ok.injEq] at h; subst h
    exact skipRecord_pos_le f cl out length hl

/-- One execution of the loop body never leaves the cursor before the place
where it found it. -/
theorem iteration_pos_le (j : Junk) (p : Parser) :
    (∀ p1, iteration j p = .next p1 → p.file.pos ≤ p1.file.pos) ∧
      (∀ q, iteration j p = .leave q → p.file.pos ≤ q.file.pos) := by
  unfold iteration
  simp only
  constructor
  · intro p1 h
    split at h
    · cases h
    · split at h
      · cases h
      · rename_i q hq
        simp only [Step.next.injEq] at h
        subst h
        exact dispatch_pos_le j p.file p.currentLevel p.cout _ _ (headerLength_lt _) q hq
  · intro q h
    split at h
    · simp only [Step.leave.injEq] at h
      subst h
      exact read_pos_le p.file 4
    · split at h <;> cases h

theorem steps_succ_right (n : Nat) :
    ∀ (junk : Nat → Junk) (p p2 : Parser), steps (n + 1) junk p = some p2 →
      ∃ p1, steps n junk p = some p1 ∧ iteration (junk n) p1 = .next p2 := by
  induction n with
  | zero =>
    intro junk p p2 h
    refine ⟨p, rfl, ?_⟩
    simp only [steps] at h
    split at h
    · cases h
    · split at h
      · rename_i q hq
        simp only [Option.some.injEq] at h
        subst h
        exact hq
      · cases h
  | succ n ih =>
    intro junk p p2 h
    rw [steps] at h
    split at h
    · cases h
    · rename_i hf
      split at h
      · rename_i q hq
        obtain ⟨p1, h1, h2⟩ := ih (fun i => junk (i + 1)) q p2 h
        refine ⟨p1, ?_, h2⟩
        rw [steps_succ_of_next n junk p q (by simpa using hf) hq]
        exact h1
      · cases h

/-! ## Face fields -/

/-- The text `parseFace` builds, for every Face payload: the C string at
`face.id` in the byte-swapped struct, then the two indices read big-endian
from payload offsets 26-27 (signed) and 16-17 (unsigned). The first eight
bytes of the struct are the id bytes of the payload. -/
theorem faceInfo_fields (fixed old : List Byte) (h28 : fixed.length = 28) :
    ∃ mem : List Byte, mem.take 8 = fixed.take 8 ∧
      faceInfo (fill 28 fixed old) =
        string mem ++ " (Material Index: ".toList ++
          to_string (toInt16 (256 * (fixed.getD 26 0).val + (fixed.getD 27 0).val)) ++
          " (Color Index : ".toList ++
          to_string ((256 * (fixed.getD 16 0).val + (fixed.getD 17 0).val : Nat) : Int) ++
          ")".toList := by
  have hfix := list_eq_getD fixed 28 h28
  have hr : List.range 28 = [0, 1, 2, 3, 4, 5, 6, 7, 8, 9, 10, 11, 12, 13, 14, 15, 16, 17, 18,
      19, 20, 21, 22, 23, 24, 25, 26, 27] := by decide
  rw [hr] at hfix
  simp only [List.map_cons, List.map_nil] at hfix
  generalize fixed.getD 0 0 = a0 at hfix
  generalize fixed.getD 1 0 = a1 at hfix
  generalize fixed.getD 2 0 = a2 at hfix
  generalize fixed.getD 3 0 = a3 at hfix
  generalize fixed.getD 4 0 = a4 at hfix
  generalize fixed.getD 5 0 = a5 at hfix
  generalize fixed.getD 6 0 = a6 at hfix
  generalize fixed.getD 7 0 = a7 at hfix
  generalize fixed.getD 8 0 = a8 at hfix
  generalize fixed.getD 9 0 = a9 at hfix
  generalize fixed.getD 10 0 = a10 at hfix
  generalize fixed.getD 11 0 = a11 at hfix
  generalize fixed.getD 12 0 = a12 at hfix
  generalize fixed.getD 13 0 = a13 at hfix
  generalize fixed.getD 14 0 = a14 at hfix
  generalize fixed.getD 15 0 = a15 at hfix
  generalize fixed.getD 16 0 = a16 at hfix
  generalize fixed.getD 17 0 = a17 at hfix
  generalize fixed.getD 18 0 = a18 at hfix
  generalize fixed.getD 19 0 = a19 at hfix
  generalize fixed.getD 20 0 = a20 at hfix
  generalize fixed.getD 21 0 = a21 at hfix
  generalize fixed.getD 22 0 = a22 at hfix
  generalize fixed.getD 23 0 = a23 at hfix
  generalize fixed.getD 24 0 = a24 at hfix
  generalize fixed.getD 25 0 = a25 at hfix
  generalize fixed.getD 26 0 = a26 at hfix
  generalize fixed.getD 27 0 = a27 at hfix
  subst hfix
  have h16 := a16.isLt
  have h17 := a17.isLt
  have h26 := a26.isLt
  have h27 := a27.isLt
  have e1 : (a27.val + 256 * a26.val) % 256 + 256 * ((a27.val + 256 * a26.val) / 256 % 256) =
      256 * a26.val + a27.val := by omega
  have e2 : (a17.val + 256 * a16.val) % 256 + 256 * ((a17.val + 256 * a16.val) / 256 % 256) =
      256 * a16.val + a17.val := by omega
  refine ⟨store16 (store16 (fill 28 [a0, a1, a2, a3, a4, a5, a6, a7, a8, a9, a10, a11, a12,
      a13, a14, a15, a16, a17, a18, a19, a20, a21, a22, a23, a24, a25, a26, a27] old) 16
      (swap_endian 2 (load16 (fill 28 [a0, a1, a2, a3, a4, a5, a6, a7, a8, a9, a10, a11, a12,
      a13, a14, a15, a16, a17, a18, a19, a20, a21, a22, a23, a24, a25, a26, a27] old) 16))) 26
      (swap_endian 2 (load16 (store16 (fill 28 [a0, a1, a2, a3, a4, a5, a6, a7, a8, a9, a10,
      a11, a12, a13, a14, a15, a16, a17, a18, a19, a20, a21, a22, a23, a24, a25, a26, a27] old)
      16 (swap_endian 2 (load16 (fill 28 [a0, a1, a2, a3, a4, a5, a6, a7, a8, a9, a10, a11,
      a12, a13, a14, a15, a16, a17, a18, a19, a20, a21, a22, a23, a24, a25, a26, a27] old)
      16))) 26)), ?_, ?_⟩
  · simp only [fill, List.length_cons, List.length_nil, List.cons_append, List.nil_append,
      store16, load16, ofBytesLE, List.getD_cons_succ, List.getD_cons_zero, List.set_cons_succ,
      List.set_cons_zero, swap_endian_two, toBytesLE, Nat.mul_zero, Nat.add_zero]
    rfl
  · unfold faceInfo
    simp only [fill, List.length_cons, List.length_nil, List.cons_append, List.nil_append,
      store16, load16, ofBytesLE, List.getD_cons_succ, List.getD_cons_zero, List.set_cons_succ,
      List.set_cons_zero, swap_endian_two, toBytesLE, Nat.mul_zero, Nat.add_zero]
    rw [e1, e2]

theorem toInt16_range (u : Nat) : -32768 ≤ toInt16 u ∧ toInt16 u ≤ 32767 := by
  unfold toInt16 toSigned
  have h : u % 2 ^ 16 < 2 ^ 16 := Nat.mod_lt _ (by decide)
  split <;> constructor <;> omega

/-! ## Lines, depth and bytes per record -/

theorem depthNeverNegative_noNegativeEmit (rs : List Record) :
    ∀ d : Int, DepthNeverNegative d rs → NoNegativeEmit d rs := by
  induction rs with
  | nil => intro d _; trivial
  | cons r rs ih => intro d h; exact ⟨fun _ => h.1, ih _ h.2⟩

theorem linesOf_length (rs : List Record) :
    ∀ (junk : Nat → Junk) (d : Int), (linesOf junk d rs).length = eventCount rs := by
  induction rs with
  | nil => intro junk d; rfl
  | cons r rs ih =>
    intro junk d
    simp only [linesOf, eventCount, List.length_append, ih]
    by_cases h : emitsLine r.opcode
    · rw [lines_of_emits _ _ _ h, if_pos h]; rfl
    · rw [lines_of_not_emits _ _ _ h, if_neg h]; rfl

theorem parseId_level (type : String) (j : Junk) (p p1 : Parser) (length : Nat)
    (h : parseId type j p length = .ok p1) : p1.currentLevel = p.currentLevel := by
  unfold parseId at h
  simp only at h
  split at h
  · cases h
  · rename_i q hq
    simp only [Except.ok.injEq] at h
    subst h
    rw [(skipRemaining_frame q length 12).2, (printWithIndent_file _ _ _ _ hq).2]

theorem parseFace_level (j : Junk) (p p1 : Parser) (length : Nat)
    (h : parseFace j p length = .ok p1) : p1.currentLevel = p.currentLevel := by
  unfold parseFace at h
  simp only at h
  split at h
  · cases h
  · rename_i q hq
    simp only [Except.ok.injEq] at h
    subst h
    rw [(skipRemaining_frame q length 32).2, (printWithIndent_file _ _ _ _ hq).2]

theorem parseLongId_level (j : Junk) (p p1 : Parser) (length : Nat)
    (h : parseLongId j p length = .ok p1) : p1.currentLevel = p.currentLevel := by
  unfold parseLongId at h
  simp only at h
  split at h
  · cases h
  · exact (printWithIndent_file _ _ _ _ h).2

/-- Only the push and pop branches of the `switch` change the depth. -/
theorem dispatch_level (j : Junk) (p p1 : Parser) (opcode : Int) (length : Nat)
    (h10 : opcode ≠ 10) (h11 : opcode ≠ 11) (h : dispatch j p opcode length = .ok p1) :
    p1.currentLevel = p.currentLevel := by
  unfold dispatch at h
  split_ifs at h
  · exact parseId_level "Header" j p p1 length h
  · exact parseId_level "Group" j p p1 length h
  · exact parseId_level "Object" j p p1 length h
  · exact parseFace_level j p p1 length h
  · exact parseLongId_level j p p1 length h
  · simp only [Except.ok.injEq] at h; subst h; rfl

theorem skipRemaining_pos (p : Parser) (length size : Nat) (hl : length < 65536)
    (hs : size < 65536) (hf : p.file.failbit = false) :
    (skipRemaining p length size).file.pos = p.file.pos + (length - size) := by
  unfold skipRemaining
  rw [toInt32_subSizeT length size hl hs]
  by_cases hr : (length : Int) - size > 0
  · simp only [hr, if_true]
    have e : (length : Int) - size = ((length - size : Nat) : Int) := by omega
    rw [e, seekg_forward _ _ hf]
  · simp only [hr, if_false]
    omega

/-- The fixed-size id decoder on a good stream that holds the eight id bytes:
the line it writes and the state it hands to the skip of the remainder. -/
theorem parseId_eq (type : String) (j : Junk) (p : Parser) (length : Nat)
    (pre id rest : List Byte) (hat : At p.file pre (id ++ rest)) (hid : id.length = 8)
    (hd : 0 ≤ p.currentLevel) :
    At (p.file.read 8).1 (pre ++ id) rest ∧
      parseId type j p length = .ok (skipRemaining
        { file := (p.file.read 8).1, currentLevel := p.currentLevel,
          cout := p.cout ++ [List.replicate (p.currentLevel * 2).toNat ' ' ++ type.toList ++
            ": ".toList ++ string (fill 8 id j.record)] } length 12) := by
  obtain ⟨h2, hat1, _⟩ := read_at id hat
  rw [hid] at h2 hat1
  refine ⟨hat1, ?_⟩
  unfold parseId
  simp only [h2]
  rw [printWithIndent_ok _ _ _ (by simpa using hd)]

theorem parseFace_eq (j : Junk) (p : Parser) (length : Nat)
    (pre fixed rest : List Byte) (hat : At p.file pre (fixed ++ rest))
    (h28 : fixed.length = 28) (hd : 0 ≤ p.currentLevel) :
    At (p.file.read 28).1 (pre ++ fixed) rest ∧
      parseFace j p length = .ok (skipRemaining
        { file := (p.file.read 28).1, currentLevel := p.currentLevel,
          cout := p.cout ++ [List.replicate (p.currentLevel * 2).toNat ' ' ++ "Face".toList ++
            ": ".toList ++ faceInfo (fill 28 fixed j.record)] } length 32) := by
  obtain ⟨h2, hat1, _⟩ := read_at fixed hat
  rw [h28] at h2 hat1
  refine ⟨hat1, ?_⟩
  unfold parseFace
  simp only [h2]
  rw [printWithIndent_ok _ _ _ (by simpa using hd)]

/-- Bytes consumed by one completed loop body, for every opcode: the record
is met with the stream good, its header and the payload bytes its decoder
reads are present, and a line-writing record is met at a non-negative depth. -/
theorem iteration_consumed (j : Junk) (p : Parser) (pre rest : List Byte)
    (b0 b1 b2 b3 : Byte) (hat : At p.file pre ([b0, b1, b2, b3] ++ rest))
    (henough : payloadRead (toInt16 (256 * b0.val + b1.val)) (256 * b2.val + b3.val) ≤
      rest.length)
    (h33 : toInt16 (256 * b0.val + b1.val) = 33 → 4 ≤ 256 * b2.val + b3.val)
    (hd : emitsLine (toInt16 (256 * b0.val + b1.val)) → 0 ≤ p.currentLevel) :
    ∃ p1, iteration j p = .next p1 ∧ p1.file.pos =
      p.file.pos + consumed (toInt16 (256 * b0.val + b1.val)) (256 * b2.val + b3.val) := by
  obtain ⟨hat1, heq⟩ := iteration_header j p pre rest b0 b1 b2 b3 hat
  rw [heq]
  have hl : 256 * b2.val + b3.val < 65536 := by
    have := b2.isLt
    have := b3.isLt
    omega
  have hp0 := hat.pos_eq
  have hp1 := hat1.pos_eq
  simp only [List.length_append, List.length_cons, List.length_nil] at hp1
  generalize toInt16 (256 * b0.val + b1.val) = op at henough h33 hd
  generalize 256 * b2.val + b3.val = len at henough h33 hl
  have hsplit : ∀ n, n ≤ rest.length → (rest.take n).length = n ∧
      At ({ p with file := (p.file.read 4).1 } : Parser).file (pre ++ [b0, b1, b2, b3])
        (rest.take n ++ rest.drop n) := by
    intro n hn
    refine ⟨List.length_take_of_le hn, ?_⟩
    rw [List.take_append_drop]
    exact hat1
  by_cases hid : op = 1 ∨ op = 2 ∨ op = 4
  · have h8 : 8 ≤ rest.length := by
      unfold payloadRead at henough; rw [if_pos hid] at henough; exact henough
    obtain ⟨hlen8, hat2⟩ := hsplit 8 h8
    obtain ⟨hat3, hpe⟩ := parseId_eq (kindOf op) j _ len _ _ _ hat2 hlen8 (hd (emitsLine_id hid))
    rw [dispatch_id j _ _ _ hid, hpe]
    refine ⟨_, rfl, ?_⟩
    rw [skipRemaining_pos _ len 12 hl (by decide) hat3.2.2.2]
    have hp3 := hat3.pos_eq
    simp only [List.length_append, List.length_cons, List.length_nil, hlen8] at hp3
    show ((p.file.read 4).1.read 8).1.pos + (len - 12) = _
    unfold consumed
    rw [if_pos hid, hp3, hp0]
    omega
  · have hn1 : op ≠ 1 := fun h => hid (Or.inl h)
    have hn2 : op ≠ 2 := fun h => hid (Or.inr (Or.inl h))
    have hn4 : op ≠ 4 := fun h => hid (Or.inr (Or.inr h))
    by_cases h5 : op = 5
    · have h28 : 28 ≤ rest.length := by
        unfold payloadRead at henough
        rw [if_neg hid, if_pos h5] at henough
        exact henough
      obtain ⟨hlen28, hat2⟩ := hsplit 28 h28
      obtain ⟨hat3, hpe⟩ := parseFace_eq j _ len _ _ _ hat2 hlen28
        (hd (Or.inr (Or.inr (Or.inr (Or.inl h5)))))
      rw [h5, dispatch_face, hpe]
      refine ⟨_, rfl, ?_⟩
      rw [skipRemaining_pos _ len 32 hl (by decide) hat3.2.2.2]
      have hp3 := hat3.pos_eq
      simp only [List.length_append, List.length_cons, List.length_nil, hlen28] at hp3
      show ((p.file.read 4).1.read 28).1.pos + (len - 32) = _
      unfold consumed
      rw [if_neg (by omega), if_pos rfl, hp3, hp0]
      omega
    · by_cases h10 : op = 10
      · rw [h10, dispatch_push]
        refine ⟨_, rfl, ?_⟩
        show (p.file.read 4).1.pos = _
        unfold consumed
        rw [if_neg (by omega), if_neg (by omega), if_pos (Or.inl rfl), hp1, hp0]
      · by_cases h11 : op = 11
        · rw [h11, dispatch_pop]
          refine ⟨_, rfl, ?_⟩
          show (p.file.read 4).1.pos = _
          unfold consumed
          rw [if_neg (by omega), if_neg (by omega), if_pos (Or.inr rfl), hp1, hp0]
        · have hcons : consumed op len = len := by
            unfold consumed
            rw [if_neg hid, if_neg h5, if_neg (by omega)]
          rw [hcons]
          by_cases hop33 : op = 33
          · have h4 := h33 hop33
            have hpay : len - 4 ≤ rest.length := by
              unfold payloadRead at henough
              rw [if_neg hid, if_neg h5, if_pos hop33] at henough
              exact henough
            obtain ⟨hlenp, hat2⟩ := hsplit (len - 4) hpay
            obtain ⟨p1, g1, g2, _, _⟩ := parseLongId_ok j
              ({ p with file := (p.file.read 4).1 } : Parser) len _ _ _ hat2 (by omega)
              (hd (Or.inr (Or.inr (Or.inr (Or.inr hop33)))))
            rw [hop33, dispatch_longId, g1]
            refine ⟨p1, rfl, ?_⟩
            have hp3 := g2.pos_eq
            simp only [List.length_append, List.length_cons, List.length_nil, hlenp] at hp3
            rw [hp3, hp0]
            omega
          · rw [dispatch_default j _ _ _ hn1 hn2 hn4 h5 h10 h11 hop33]
            refine ⟨_, rfl, ?_⟩
            have hoff : toInt64 (subSizeT len 4) = (len : Int) - 4 := by
              rw [toInt64_subSizeT len 4 hl (by decide)]
              rfl
            have hnn : ¬ (((p.file.read 4).1.pos : Int) + ((len : Int) - 4) < 0) := by
              rw [hp1]; omega
            simp only [skipRecord, hoff, IfStream.seekg, hat1.2.2.2, Bool.false_eq_true,
              if_false, hnn]
            show (((p.file.read 4).1.pos : Int) + ((len : Int) - 4)).toNat = _
            rw [hp1, hp0]
            omega

/-! ## Identifiers without a zero byte -/

theorem takeWhile_append_all (q : Byte → Bool) (l₁ l₂ : List Byte) (h : ∀ x ∈ l₁, q x = true) :
    (l₁ ++ l₂).takeWhile q = l₁ ++ l₂.takeWhile q := by
  induction l₁ with
  | nil => rfl
  | cons a l ih =>
    have ha : q a = true := h a (List.mem_cons_self _ _)
    simp [List.takeWhile_cons, ha, ih (fun x hx => h x (List.mem_cons_of_mem _ hx))]

/-- A C string read from an array without a zero byte runs on into the memory
behind the array. -/
theorem string_runs_on (arr behind : List Byte) (h : ∀ x ∈ arr, x ≠ 0) :
    string (arr ++ behind) = arr.map toChar ++ string behind := by
  unfold string
  rw [takeWhile_append_all _ _ _ (fun x hx => by simpa using h x hx), List.map_append]

theorem string_append_zeros (mem : List Byte) (n : Nat) :
    string (mem ++ List.replicate n 0) = string mem := by
  unfold string
  induction mem with
  | nil =>
    cases n with
    | zero => rfl
    | succ n => simp [List.replicate_succ, List.takeWhile_cons]
  | cons a l ih =>
    by_cases ha : a = 0
    · simp [List.takeWhile_cons, ha]
    · simp only [List.cons_append, List.takeWhile_cons, ne_eq, ha, not_false_eq_true,
        decide_True, if_true, List.map_cons]
      rw [ih]

theorem toInt16_eq (u : Nat) (h : u < 65536) :
    toInt16 u = if u < 32768 then (u : Int) else (u : Int) - 65536 := by
  unfold toInt16 toSigned
  have e : u % 2 ^ 16 = u := Nat.mod_eq_of_lt (by omega)
  rw [e]
  split <;> rename_i h1
  · rw [if_pos (by omega)]
  · rw [if_neg (by omega)]
    norm_num

/-! ## The claims -/

/-! ### C1: framing invariant -/

/-- C2, counterexample. The Face record `faceRecord` (id `F1`, colour name
index 5, material index 7) is printed as
`Face: F1 (Material Index: 7 (Color Index : 5)`, with a blank between `Index`
and the second colon, and for no indeterminate memory as the line the claim
gives. -/
theorem face_line_has_blank_before_colon :
    (∃ p, parseFile 2 zeroJunk (some faceSample) = some (.returned true p) ∧
      p.cout = ["Face: F1 (Material Index: 7 (Color Index : 5)".toList]) ∧
    ¬ ∃ (junk : Nat → Junk) (p : Parser),
      parseFile 2 junk (some faceSample) = some (.returned true p) ∧
        p.cout = ["Face: F1 (Material Index: 7 (Color Index: 5)".toList] := by
  refine ⟨⟨_, rfl, by decide⟩, ?_⟩
  rintro ⟨junk, p, hp, hout⟩
  obtain ⟨q, hq, _, _, hlines⟩ := parseFile_records [faceRecord] junk 0 (by decide) (by decide)
  have hs : stream [faceRecord] = faceSample := by decide
  rw [hs] at hq
  have hq2 : parseFile 2 junk (some faceSample) = some (.returned true q) := hq
  rw [hq2] at hp
  simp only [Option.some.injEq, Outcome.returned.injEq, true_and] at hp
  subst hp
  have hl : linesOf junk 0 [faceRecord] =
      ["Face: F1 (Material Index: 7 (Color Index : 5)".toList] := by
    simp only [linesOf, List.append_nil]
    rw [lines_of_emits _ _ _ (by decide), text_face _ _ (by decide),
      faceInfo_fill _ _ (by decide) (by decide)]
    decide
  rw [hlines, hl] at hout
  exact absurd hout (by decide)

/-- C2, amended. For every Face record (opcode 5, any declared length) whose 28
fixed payload bytes are present and whose 8-byte id holds a zero byte, decoding
at depth 0 writes exactly the line
`Face: <id> (Material Index: <m> (Color Index : <c>)`, with a blank before the
second colon, where `<id>` is the id up to its first zero byte, `<m>` the
signed big-endian 16-bit value of payload bytes 26 and 27 and `<c>` the
unsigned big-endian 16-bit value of payload bytes 16 and 17. -/
theorem face_line (j : Junk) (p : Parser) (pre fixed rest : List Byte) (len0 len1 : Byte)
    (hat : At p.file pre ([0, 5, len0, len1] ++ (fixed ++ rest)))
    (h28 : fixed.length = 28) (hz : (0 : Byte) ∈ fixed.take 8) (hd : p.currentLevel = 0) :
    ∃ p1, iteration j p = .next p1 ∧
      p1.cout = p.cout ++ ["Face: ".toList ++ string (fixed.take 8) ++
        " (Material Index: ".toList ++
        to_string (toInt16 (256 * (fixed.getD 26 0).val + (fixed.getD 27 0).val)) ++
        " (Color Index : ".toList ++
        to_string ((256 * (fixed.getD 16 0).val + (fixed.getD 17 0).val : Nat) : Int) ++
        ")".toList] := by
  obtain ⟨hat1, heq⟩ := iteration_header j p pre (fixed ++ rest) 0 5 len0 len1 hat
  have hop : toInt16 (256 * (0 : Byte).val + (5 : Byte).val) = 5 := by decide
  rw [hop, dispatch_face] at heq
  obtain ⟨p1, h1, _, h3⟩ := parseFace_line j { p with file := (p.file.read 4).1 }
    (256 * len0.val + len1.val) _ fixed rest hat1 h28 (by simp [hd])
  rw [h1] at heq
  refine ⟨p1, heq, ?_⟩
  rw [h3, faceInfo_fill fixed j.record h28 hz]
  simp [hd, List.append_assoc]

/-- C2, witness: `faceSample`, whose record has id `F1`, colour name index 5
and material index 7. -/
theorem face_line_witness :
    ∃ p1, iteration (zeroJunk 0) (Parser.start (some faceSample)) = .next p1 ∧
      p1.cout = ["Face: F1 (Material Index: 7 (Color Index : 5)".toList] :=
  face_line (zeroJunk 0) (Parser.start (some faceSample)) [] faceRecord.payload [] 0 32
    ⟨rfl, rfl, rfl, rfl⟩ (by decide) (by decide) rfl

/-! ### C3: unbalanced hierarchy -/

/-- C3, the code at the failing input. On the file Pop, Object(`Y`) the
program does not write `Object: Y`: the depth is -1 when the Object record is
decoded, `printWithIndent` asks for a string of `size_t(-2)` blanks, and the
uncaught `std::length_error` ends the program with nothing written. -/
theorem pop_then_object_terminates (junk : Nat → Junk) (k : Nat) :
    parseFile (k + 2) junk (some popThenObject) = some (.terminated .length_error []) := by
  have hs : popThenObject = stream [popRecord] ++ objectY.bytes := by decide
  have hat : At (Parser.start (some popThenObject)).file [] (stream [popRecord] ++ objectY.bytes) := by
    rw [← hs]; exact start_at _
  obtain ⟨p1, h1, h2, h3, h4⟩ := steps_records [popRecord] junk _ [] _ hat (by decide) (by decide)
  have hlev : p1.currentLevel < 0 := by
    rw [h3]; decide
  have hout : p1.cout = [] := by
    rw [h4]; rfl
  have hat2 : At p1.file ([] ++ stream [popRecord]) ([0, 4, 0, 12] ++ objectY.payload) := h2
  have hit := iteration_negative_depth (junk 1) p1 _ _ 0 4 0 12 hat2 (by decide) (by decide) hlev
  rw [hout] at hit
  have e : k + 2 = 1 + (k + 1) := by omega
  rw [parseFile_some, e]
  exact loop_throw 1 k junk _ p1 _ _ h1 h2.not_fail hit

/-! ### C4: termination -/

/-- C4, the code at the failing input. On the four-byte file `03 E7 00 00`
(opcode 999, declared length 0) the loop is still running after any number of
header reads: the `default` branch computes `0 - sizeof(header)` in `size_t`,
which `seekg` takes as -4, so every iteration ends where it began. -/
theorem zero_length_unknown_record_never_ends (junk : Nat → Junk) (fuel : Nat) :
    parseFile fuel junk (some zeroLengthUnknown) = none := by
  rw [parseFile_some]
  exact loop_zero_length_unknown fuel junk _ (start_at _)

/-! ### C5: truncated payload -/

/-- C8. For every record whose opcode is none of 1, 2, 4, 5, 10, 11, 33 and
whose declared length is `L >= 4`, met with the stream good and its four header
bytes present, the loop body reads the header (cursor + 4) and moves the
cursor forward by exactly `L - 4` more bytes, writes no line and leaves the
depth unchanged. -/
theorem unknown_opcode_skip (j : Junk) (p : Parser) (pre rest : List Byte)
    (b0 b1 b2 b3 : Byte) (hat : At p.file pre ([b0, b1, b2, b3] ++ rest))
    (h1 : toInt16 (256 * b0.val + b1.val) ≠ 1) (h2 : toInt16 (256 * b0.val + b1.val) ≠ 2)
    (h4 : toInt16 (256 * b0.val + b1.val) ≠ 4) (h5 : toInt16 (256 * b0.val + b1.val) ≠ 5)
    (h10 : toInt16 (256 * b0.val + b1.val) ≠ 10)
    (h11 : toInt16 (256 * b0.val + b1.val) ≠ 11)
    (h33 : toInt16 (256 * b0.val + b1.val) ≠ 33)
    (hlen : 4 ≤ 256 * b2.val + b3.val) :
    ∃ p1, iteration j p = .next p1 ∧
      (p.file.read 4).1.pos = p.file.pos + 4 ∧
      p1.file.pos = (p.file.read 4).1.pos + (256 * b2.val + b3.val - 4) ∧
      p1.file.fail = false ∧ p1.cout = p.cout ∧ p1.currentLevel = p.currentLevel := by
  obtain ⟨hat1, heq⟩ := iteration_header j p pre rest b0 b1 b2 b3 hat
  rw [dispatch_default j _ _ _ h1 h2 h4 h5 h10 h11 h33] at heq
  have hl : 256 * b2.val + b3.val < 65536 := by
    have := b2.isLt
    have := b3.isLt
    omega
  have hoff : toInt64 (subSizeT (256 * b2.val + b3.val) 4) =
      ((256 * b2.val + b3.val - 4 : Nat) : Int) := by
    rw [toInt64_subSizeT _ 4 hl (by decide)]
    omega
  refine ⟨_, heq, ?_, ?_, ?_, rfl, rfl⟩
  · rw [hat1.pos_eq, hat.pos_eq]; simp
  · simp only [skipRecord, hoff]
    rw [seekg_forward _ _ hat1.2.2.2]
  · simp only [skipRecord, hoff]
    rw [seekg_forward _ _ hat1.2.2.2]
    exact hat1.2.2.2

/-- C8, witness: the record of opcode 999 and declared length 6 at the start of
`unknownThenPush`. -/
theorem unknown_opcode_skip_witness :
    ∃ p1, iteration (zeroJunk 0) (Parser.start (some unknownThenPush)) = .next p1 ∧
      ((Parser.start (some unknownThenPush)).file.read 4).1.pos =
        (Parser.start (some unknownThenPush)).file.pos + 4 ∧
      p1.file.pos = ((Parser.start (some unknownThenPush)).file.read 4).1.pos +
        (256 * (0 : Byte).val + (6 : Byte).val - 4) ∧
      p1.file.fail = false ∧ p1.cout = (Parser.start (some unknownThenPush)).cout ∧
      p1.currentLevel = (Parser.start (some unknownThenPush)).currentLevel :=
  unknown_opcode_skip (zeroJunk 0) (Parser.start (some unknownThenPush)) []
    [1, 2, 0, 10, 0, 4] 3 231 0 6 ⟨rfl, rfl, rfl, rfl⟩ (by decide) (by decide) (by decide)
    (by decide) (by decide) (by decide) (by decide) (by decide)

/-! ### C9: depth accounting and indentation -/

/-- C11, the code at the failing input. The Header record of `fullIdHeader`
has the id `ABCDEFGH`, which fills all eight bytes. `string(hdr.id)` finds no
zero byte in the array and reads on into the stack behind the struct: for
every indeterminate memory the text is the eight id characters followed by
the C string that happens to stand behind them, so with `I`, `J` and a zero
byte there (`stackJunk`) the line is `Header: ABCDEFGHIJ`, ten characters of
text. -/
theorem full_id_runs_past_the_field :
    (∃ p, parseFile 2 stackJunk (some fullIdHeader) = some (.returned true p) ∧
      p.cout = ["Header: ABCDEFGHIJ".toList]) ∧
    ∀ (junk : Nat → Junk) (k : Nat), ∃ p,
      parseFile (k + 2) junk (some fullIdHeader) = some (.returned true p) ∧
        p.cout = ["Header: ABCDEFGH".toList ++ string ((junk 0).record.drop 8)] := by
  refine ⟨⟨_, rfl, rfl⟩, fun junk k => ?_⟩
  obtain ⟨q, hq, _, _, hlines⟩ := parseFile_records
    [⟨0, 1, 0, 12, [65, 66, 67, 68, 69, 70, 71, 72]⟩] junk k (by decide) (by decide)
  have hs : stream [⟨0, 1, 0, 12, [65, 66, 67, 68, 69, 70, 71, 72]⟩] = fullIdHeader := by
    decide
  have e : [(⟨0, 1, 0, 12, [65, 66, 67, 68, 69, 70, 71, 72]⟩ : Record)].length + (k + 1) =
      k + 2 := by
    simp only [List.length_cons, List.length_nil]; omega
  rw [hs, e] at hq
  refine ⟨q, hq, ?_⟩
  rw [hlines]
  simp only [linesOf, List.append_nil]
  rw [lines_of_emits _ _ _ (by decide), text_id _ _ (by decide)]
  have hfill : fill 8 (List.take 8
      (⟨0, 1, 0, 12, [65, 66, 67, 68, 69, 70, 71, 72]⟩ : Record).payload) (junk 0).record =
      [65, 66, 67, 68, 69, 70, 71, 72] ++ (junk 0).record.drop 8 ++ List.replicate 0 0 := by
    simp [fill]
  rw [hfill, string_append_zeros,
    string_runs_on [65, 66, 67, 68, 69, 70, 71, 72] _ (by simp)]
  rfl

/-! ### C12: monotone cursor -/

/-- C12. For every file and every record processed by the loop of `parseFile`
(every completed execution of the loop body, the `n + 1`-th here), the cursor
after the record is not smaller than the cursor before it, for every opcode
and every declared length; nor does the header read that ends the loop move
it back. For a declared length below 4 the `default` branch does seek
backwards, by at most the four header bytes just read. -/
theorem cursor_monotone (junk : Nat → Junk) (bytes : List Byte) (n : Nat) (p1 p2 : Parser)
    (h1 : steps n junk (Parser.start (some bytes)) = some p1)
    (h2 : steps (n + 1) junk (Parser.start (some bytes)) = some p2) :
    p1.file.pos ≤ p2.file.pos ∧
      ∀ q, iteration (junk (n + 1)) p2 = .leave q → p2.file.pos ≤ q.file.pos := by
  obtain ⟨p0, h0, hit⟩ := steps_succ_right n junk _ p2 h2
  rw [h1] at h0
  simp only [Option.some.injEq] at h0
  subst h0
  exact ⟨(iteration_pos_le (junk n) p1).1 p2 hit, (iteration_pos_le (junk (n + 1)) p2).2⟩

/-- C12, witness: the first record of `shortUnknown`, of unknown opcode and
declared length 2, which takes the cursor from 0 to 2. -/
theorem cursor_monotone_witness :
    (Parser.start (some shortUnknown)).file.pos ≤
        (⟨⟨shortUnknown, 2, false, false, 4⟩, 0, []⟩ : Parser).file.pos ∧
      ∀ q, iteration (zeroJunk (0 + 1)) ⟨⟨shortUnknown, 2, false, false, 4⟩, 0, []⟩ = .leave q →
        (⟨⟨shortUnknown, 2, false, false, 4⟩, 0, []⟩ : Parser).file.pos ≤ q.file.pos :=
  cursor_monotone zeroJunk shortUnknown 0 (Parser.start (some shortUnknown))
    ⟨⟨shortUnknown, 2, false, false, 4⟩, 0, []⟩ rfl rfl

/-! ### C13: output lines in stream order -/

/-- C15. For every four header bytes `b0 b1 b2 b3` read from a good stream,
the opcode the loop dispatches on is the two's-complement signed 16-bit value
of `256 * b0 + b1` and the declared length it uses is the unsigned value
`256 * b2 + b3`, whatever the local `header` held before the read. -/
theorem header_decoding (j : Junk) (p : Parser) (pre rest : List Byte) (b0 b1 b2 b3 : Byte)
    (hat : At p.file pre ([b0, b1, b2, b3] ++ rest)) :
    headerOpcode (fill 4 (p.file.read 4).2 j.header) =
      (if 256 * b0.val + b1.val < 32768 then ((256 * b0.val + b1.val : Nat) : Int)
        else ((256 * b0.val + b1.val : Nat) : Int) - 65536) ∧
    headerLength (fill 4 (p.file.read 4).2 j.header) = 256 * b2.val + b3.val ∧
    iteration j p =
      (match dispatch j { p with file := (p.file.read 4).1 }
          (headerOpcode (fill 4 (p.file.read 4).2 j.header))
          (headerLength (fill 4 (p.file.read 4).2 j.header)) with
        | .error e => Step.throw e p.cout
        | .ok p1 => Step.next p1) := by
  obtain ⟨h2, _, _⟩ := read_at [b0, b1, b2, b3] hat
  simp only [List.length_cons, List.length_nil] at h2
  obtain ⟨_, heq⟩ := iteration_header j p pre rest b0 b1 b2 b3 hat
  have hlt : 256 * b0.val + b1.val < 65536 := by
    have := b0.isLt
    have := b1.isLt
    omega
  rw [h2, headerOpcode_fill, headerLength_fill]
  exact ⟨toInt16_eq _ hlt, rfl, heq⟩

/-- C15, witness: the header `03 E7 00 06` at the start of `unknownThenPush`,
opcode 999 and declared length 6. -/
theorem header_decoding_witness :
    headerOpcode (fill 4 ((Parser.start (some unknownThenPush)).file.read 4).2
        (zeroJunk 0).header) =
      (if 256 * (3 : Byte).val + (231 : Byte).val < 32768
        then ((256 * (3 : Byte).val + (231 : Byte).val : Nat) : Int)
        else ((256 * (3 : Byte).val + (231 : Byte).val : Nat) : Int) - 65536) ∧
    headerLength (fill 4 ((Parser.start (some unknownThenPush)).file.read 4).2
        (zeroJunk 0).header) = 256 * (0 : Byte).val + (6 : Byte).val ∧
    iteration (zeroJunk 0) (Parser.start (some unknownThenPush)) =
      (match dispatch (zeroJunk 0)
          { Parser.start (some unknownThenPush) with
            file := ((Parser.start (some unknownThenPush)).file.read 4).1 }
          (headerOpcode (fill 4 ((Parser.start (some unknownThenPush)).file.read 4).2
            (zeroJunk 0).header))
          (headerLength (fill 4 ((Parser.start (some unknownThenPush)).file.read 4).2
            (zeroJunk 0).header)) with
        | .error e => Step.throw e (Parser.start (some unknownThenPush)).cout
        | .ok p1 => Step.next p1) :=
  header_decoding (zeroJunk 0) (Parser.start (some unknownThenPush)) [] [1, 2, 0, 10, 0, 4]
    3 231 0 6 ⟨rfl, rfl, rfl, rfl⟩

/-! ### C16: bytes consumed per record -/

/-- C16, the code at the failing input. On the file Pop, Object(`Y`) whose
Object record declares 14 bytes, processing the Object record does not advance
the cursor by `max(14, 12) = 14`: the depth is -1, `printWithIndent` throws
`std::length_error` after the header and the id have been read and before the
remainder is skipped, and the program ends. This is the defect of C3. Whenever
the loop body completes, the cursor has advanced by what the claim says
(`iteration_consumed`). -/
theorem pop_then_long_object_terminates (junk : Nat → Junk) (k : Nat) :
    parseFile (k + 2) junk (some popThenLongObject) = some (.terminated .length_error []) ∧
      consumed objectLong.opcode objectLong.length = 14 := by
  refine ⟨?_, by decide⟩
  have hs : popThenLongObject = stream [popRecord] ++ objectLong.bytes := by decide
  have hat : At (Parser.start (some popThenLongObject)).file []
      (stream [popRecord] ++ objectLong.bytes) := by
    rw [← hs]; exact start_at _
  obtain ⟨p1, h1, h2, h3, h4⟩ := steps_records [popRecord] junk _ [] _ hat (by decide)
    (by decide)
  have hlev : p1.currentLevel < 0 := by
    rw [h3]; decide
  have hout : p1.cout = [] := by
    rw [h4]; rfl
  have hat2 : At p1.file ([] ++ stream [popRecord]) ([0, 4, 0, 14] ++ objectLong.payload) := h2
  have hit := iteration_negative_depth (junk 1) p1 _ _ 0 4 0 14 hat2 (by decide) (by decide)
    hlev
  rw [hout] at hit
  have e : k + 2 = 1 + (k + 1) := by omega
  rw [parseFile_some, e]
  exact loop_throw 1 k junk _ p1 _ _ h1 h2.not_fail hit

/-! ### C17: Face index ranges and offsets -/

/-- C18. For every width `size` and every value `x` that fits in `size` bytes,
the bytes of `swap_endian(x)` are the bytes of `x` in reverse order and
`swap_endian(swap_endian(x)) = x`; for a 16-bit value the high byte of the
result is the low byte of `x` and its low byte is the high byte of `x`. -/
theorem swap_endian_involution (size x : Nat) (hx : x < 256 ^ size) :
    toBytesLE size (swap_endian size x) = (toBytesLE size x).reverse ∧
    swap_endian size (swap_endian size x) = x ∧
    (size = 2 → swap_endian size x / 256 = x % 256 ∧ swap_endian size x % 256 = x / 256) := by
  refine ⟨?_, swap_endian_swap_endian size x hx, ?_⟩
  · rw [swap_endian_reverse]
    have hl : (toBytesLE size x).reverse.length = size := by
      rw [List.length_reverse, toBytesLE_length]
    have h := toBytesLE_ofBytesLE (toBytesLE size x).reverse
    rw [hl] at h
    exact h
  · intro h2
    subst h2
    rw [swap_endian_16]
    have : x < 65536 := hx
    omega

/-- C18, witness: the 16-bit value `0x1234`. -/
theorem swap_endian_involution_witness :
    toBytesLE 2 (swap_endian 2 4660) = (toBytesLE 2 4660).reverse ∧
    swap_endian 2 (swap_endian 2 4660) = 4660 ∧
    (2 = 2 → swap_endian 2 4660 / 256 = 4660 % 256 ∧ swap_endian 2 4660 % 256 = 4660 / 256) :=
  swap_endian_involution 2 4660 (by decide)

end OpenFlight
